import Mathlib

/-!
Verification development for the symbol-table and EBC rule-naming core of
the Soar kernel sources (symtab.cpp, ebc.cpp, decider.cpp).  The C code is
shallowly embedded: each hash table is modelled by the list of the symbols
it contains (the bucket structure only influences placement, never which
symbols are present), memory pools are modelled by their free list together
with a high-water mark for slots never handed out yet, and pointers are
modelled by pool slot numbers.
-/

set_option maxRecDepth 4000

namespace Soar

/-! ### Decimal rendering of unsigned integers

The C code renders counters with SNPRINTF "%s%lu" and std::to_string, both
of which print the decimal digits of the number.  The renderer is written
with explicit fuel so that it reduces inside the kernel; fuel at least
n + 1 is always sufficient and the choice of fuel is proved irrelevant. -/

/-- Little-endian-to-big-endian decimal digit list of a natural number,
with explicit fuel (any fuel greater than the number gives the digits). -/
def natDigits : Nat → Nat → List Char
  | 0, _ => []
  | fuel + 1, n =>
    if n < 10 then [Nat.digitChar n]
    else natDigits fuel (n / 10) ++ [Nat.digitChar (n % 10)]

/-- Decimal rendering of a natural number, as produced by std::to_string
and by SNPRINTF with the %lu conversion. -/
def natToStr (n : Nat) : String :=
  String.mk (natDigits (n + 1) n)

theorem natDigits_fuel_irrel : ∀ f₁ f₂ n, n < f₁ → n < f₂ →
    natDigits f₁ n = natDigits f₂ n := by
  intro f₁
  induction f₁ using Nat.strong_induction_on with
  | _ f₁ ih =>
    intro f₂ n h₁ h₂
    match f₁, f₂ with
    | g₁ + 1, g₂ + 1 =>
      simp only [natDigits]
      by_cases h : n < 10
      · simp [h]
      · simp only [h, if_false]
        have hd : n / 10 < g₁ := Nat.lt_of_lt_of_le (Nat.div_lt_self
          (Nat.pos_of_ne_zero (by omega)) (by omega)) (by omega)
        have hd₂ : n / 10 < g₂ := Nat.lt_of_lt_of_le (Nat.div_lt_self
          (Nat.pos_of_ne_zero (by omega)) (by omega)) (by omega)
        rw [ih g₁ (Nat.lt_succ_self _) g₂ (n / 10) hd hd₂]

theorem natDigits_length_pos (f n : Nat) (h : n < f) :
    0 < (natDigits f n).length := by
  match f with
  | g + 1 =>
    simp only [natDigits]
    by_cases h10 : n < 10 <;> simp [h10]

/-- The value of a number is below 10 to the number of its digits. -/
theorem natDigits_lt_pow : ∀ f n, n < f → n < 10 ^ (natDigits f n).length := by
  intro f
  induction f using Nat.strong_induction_on with
  | _ f ih =>
    intro n h
    match f with
    | g + 1 =>
      simp only [natDigits]
      by_cases h10 : n < 10
      · simp [h10]
      · simp only [h10, if_false, List.length_append, List.length_cons,
          List.length_nil]
        have hd : n / 10 < g := Nat.lt_of_lt_of_le (Nat.div_lt_self
          (Nat.pos_of_ne_zero (by omega)) (by omega)) (by omega)
        have hrec := ih g (Nat.lt_succ_self _) (n / 10) hd
        have : n < 10 * (n / 10) + 10 := by omega
        calc n < 10 * (n / 10) + 10 := this
          _ ≤ 10 * 10 ^ (natDigits g (n / 10)).length := by
              have : n / 10 + 1 ≤ 10 ^ (natDigits g (n / 10)).length := hrec
              omega
          _ = 10 ^ ((natDigits g (n / 10)).length + (0 + 1)) := by ring
  -- the digit list length of n is the recursive length plus one

theorem natToStr_length_gt (d n : Nat) (h : 10 ^ d ≤ n) :
    d < (natToStr n).length := by
  have hlt : n < 10 ^ (natDigits (n + 1) n).length :=
    natDigits_lt_pow (n + 1) n (Nat.lt_succ_self n)
  have hpow : 10 ^ d < 10 ^ (natDigits (n + 1) n).length :=
    Nat.lt_of_le_of_lt h hlt
  have hdlt : d < (natDigits (n + 1) n).length :=
    (Nat.pow_lt_pow_iff_right (by omega)).mp hpow
  simpa [natToStr, String.length] using hdlt

/-! ### First-match update on lists

symbol_add_ref and symbol_remove_ref act through a pointer on exactly one
symbol record; in the list model this is an update of the first (and, in
well-formed states, only) entry with the given pool slot. -/

/-- Update the first element satisfying p, leaving the rest unchanged. -/
def updateFirst (p : α → Bool) (f : α → α) : List α → List α
  | [] => []
  | a :: as => if p a then f a :: as else a :: updateFirst p f as

theorem updateFirst_eq_self (p : α → Bool) (f : α → α)
    (hf : ∀ a, f a = a) : ∀ l : List α, updateFirst p f l = l := by
  intro l
  induction l with
  | nil => rfl
  | cons a as ih =>
    simp only [updateFirst, hf a, ih]
    split <;> rfl

theorem updateFirst_updateFirst (p : α → Bool) (f g : α → α)
    (hp : ∀ a, p (g a) = p a) :
    ∀ l : List α, updateFirst p f (updateFirst p g l)
      = updateFirst p (fun a => f (g a)) l := by
  intro l
  induction l with
  | nil => rfl
  | cons a as ih =>
    by_cases h : p a
    · simp [updateFirst, h, hp a]
    · simp [updateFirst, h, hp a, ih]

theorem map_updateFirst (p : α → Bool) (f : α → α) (key : α → κ)
    (hk : ∀ a, key (f a) = key a) :
    ∀ l : List α, (updateFirst p f l).map key = l.map key := by
  intro l
  induction l with
  | nil => rfl
  | cons a as ih =>
    by_cases h : p a
    · simp [updateFirst, h, hk a]
    · simp [updateFirst, h, ih]

/-! ### The symbol records (symtab.h data model, symtab.cpp routines)

Each of the five symbol kinds is modelled by a structure holding its
identity key, the common reference count, the common hash_id nonce, and
the fields the claims mention.  The pool slot number stands for the
address of the record: two records are "the same symbol" exactly when
kind and slot agree.  Fields that no claim in scope reads (tc_num, the
weak variablization back-references, the epmem/smem cache slots, the
identifier working-memory payload) carry no information relevant to the
claims and are omitted from the records; the operations below touch them
only by initialising them. -/

/-- A variable symbol: identity is the name string. -/
structure VarSym where
  slot : Nat
  name : String
  reference_count : Nat
  hash_id : Nat
  deriving DecidableEq, Repr

/-- An identifier symbol: identity is the (name_letter, name_number) pair.
smem_lti models whether the smem_lti back-reference is set (long-term
identifier). -/
structure IdSym where
  slot : Nat
  name_letter : Char
  name_number : Nat
  level : Int
  smem_lti : Bool
  reference_count : Nat
  hash_id : Nat
  deriving DecidableEq, Repr

/-- A symbolic constant: identity is the name string. -/
structure SymConst where
  slot : Nat
  name : String
  reference_count : Nat
  hash_id : Nat
  deriving DecidableEq, Repr

/-- An integer constant: identity is the signed 64-bit value. -/
structure IntConst where
  slot : Nat
  value : Int
  reference_count : Nat
  hash_id : Nat
  deriving DecidableEq, Repr

/-- A float constant: identity is the stored numeric value, compared by
value equality.  The value is modelled as a rational, which covers the
reflexive-equality fragment of IEEE doubles (every finite double is a
rational; NaN behaviour is an open question in the spec, section 9). -/
structure FloatConst where
  slot : Nat
  value : Rat
  reference_count : Nat
  hash_id : Nat
  deriving DecidableEq, Repr

/-- Memory pool (mem.h interface; spec section 4.1).  Modelled from the
spec: the pool implementation is not among the sources, so allocate pops
the free list when possible and otherwise carves a never-used slot below
the high-water mark; free pushes the slot back on the free list. -/
structure Pool where
  free_list : List Nat
  high_water : Nat
  deriving DecidableEq, Repr

/-- allocate_with_pool: O(1); reuses the head of the free list, else a
fresh slot. -/
def Pool.allocate : Pool → Nat × Pool
  | ⟨[], hw⟩ => (hw, ⟨[], hw + 1⟩)
  | ⟨s :: rest, hw⟩ => (s, ⟨rest, hw⟩)

/-- free_with_pool: O(1); returns the slot to the free list. -/
def Pool.release (p : Pool) (s : Nat) : Pool :=
  { p with free_list := s :: p.free_list }

/-- The per-agent symbol-table state: the five hash tables (as the lists
of symbols they contain), the five pools, the hash_id nonce, and the
26-entry identifier counter array. -/
structure SymAgent where
  variable_hash_table : List VarSym
  identifier_hash_table : List IdSym
  sym_constant_hash_table : List SymConst
  int_constant_hash_table : List IntConst
  float_constant_hash_table : List FloatConst
  variable_pool : Pool
  identifier_pool : Pool
  sym_constant_pool : Pool
  int_constant_pool : Pool
  float_constant_pool : Pool
  current_symbol_hash_id : Nat
  id_counter : List Nat
  deriving DecidableEq, Repr

/-- get_next_symbol_hash_id: the nonce stepped by the prime 137; the C
routine returns the incremented value. -/
def get_next_symbol_hash_id (a : SymAgent) : Nat × SymAgent :=
  (a.current_symbol_hash_id + 137,
   { a with current_symbol_hash_id := a.current_symbol_hash_id + 137 })

/-- The agent state right after init_symbol_tables: empty tables, fresh
pools, nonce 0, and all 26 identifier counters set to 1 by the
reset_id_counters call it performs. -/
def initAgent : SymAgent where
  variable_hash_table := []
  identifier_hash_table := []
  sym_constant_hash_table := []
  int_constant_hash_table := []
  float_constant_hash_table := []
  variable_pool := ⟨[], 0⟩
  identifier_pool := ⟨[], 0⟩
  sym_constant_pool := ⟨[], 0⟩
  int_constant_pool := ⟨[], 0⟩
  float_constant_pool := ⟨[], 0⟩
  current_symbol_hash_id := 0
  id_counter := List.replicate 26 1

/-! #### find routines (non-owning lookups) -/

/-- find_variable: first live variable with the given name, if any. -/
def find_variable (a : SymAgent) (name : String) : Option VarSym :=
  a.variable_hash_table.find? (fun s => s.name == name)

/-- find_identifier: first identifier with the given letter and number. -/
def find_identifier (a : SymAgent) (letter : Char) (number : Nat) :
    Option IdSym :=
  a.identifier_hash_table.find?
    (fun s => s.name_letter == letter && s.name_number == number)

/-- find_sym_constant: first symbolic constant with the given name. -/
def find_sym_constant (a : SymAgent) (name : String) : Option SymConst :=
  a.sym_constant_hash_table.find? (fun s => s.name == name)

/-- find_int_constant: first integer constant with the given value. -/
def find_int_constant (a : SymAgent) (value : Int) : Option IntConst :=
  a.int_constant_hash_table.find? (fun s => s.value == value)

/-- find_float_constant: first float constant with the given value. -/
def find_float_constant (a : SymAgent) (value : Rat) : Option FloatConst :=
  a.float_constant_hash_table.find? (fun s => s.value == value)

/-! #### Reference-count maintenance

symbol_add_ref and symbol_remove_ref are declared in symtab.h, which is
not among the sources.  Modelled from the spec: add_ref(s) increments the
refcount; release(s) decrements it, and a refcount dropping to zero
triggers deallocation (deallocate_symbol below is translated from
symtab.cpp).  A pointer to a symbol is (kind, slot). -/

/-- The five symbol kinds (the symbol_type tag). -/
inductive SymKind where
  | varSym | idSym | scSym | intSym | floatSym
  deriving DecidableEq, Repr

/-- A pointer to a symbol record: its kind together with its pool slot. -/
structure SymRef where
  kind : SymKind
  slot : Nat
  deriving DecidableEq, Repr

/-- symbol_add_ref on a variable pointer. -/
def var_add_ref (a : SymAgent) (slot : Nat) : SymAgent :=
  let t := updateFirst (fun s => s.slot == slot)
    (fun s => { s with reference_count := s.reference_count + 1 })
    a.variable_hash_table
  { a with variable_hash_table := t }

/-- symbol_add_ref on an identifier pointer. -/
def id_add_ref (a : SymAgent) (slot : Nat) : SymAgent :=
  let t := updateFirst (fun s => s.slot == slot)
    (fun s => { s with reference_count := s.reference_count + 1 })
    a.identifier_hash_table
  { a with identifier_hash_table := t }

/-- symbol_add_ref on a symbolic-constant pointer. -/
def sc_add_ref (a : SymAgent) (slot : Nat) : SymAgent :=
  let t := updateFirst (fun s => s.slot == slot)
    (fun s => { s with reference_count := s.reference_count + 1 })
    a.sym_constant_hash_table
  { a with sym_constant_hash_table := t }

/-- symbol_add_ref on an integer-constant pointer. -/
def int_add_ref (a : SymAgent) (slot : Nat) : SymAgent :=
  let t := updateFirst (fun s => s.slot == slot)
    (fun s => { s with reference_count := s.reference_count + 1 })
    a.int_constant_hash_table
  { a with int_constant_hash_table := t }

/-- symbol_add_ref on a float-constant pointer. -/
def float_add_ref (a : SymAgent) (slot : Nat) : SymAgent :=
  let t := updateFirst (fun s => s.slot == slot)
    (fun s => { s with reference_count := s.reference_count + 1 })
    a.float_constant_hash_table
  { a with float_constant_hash_table := t }

/-- symbol_add_ref: increment the refcount of the pointed-to symbol. -/
def symbol_add_ref (a : SymAgent) (r : SymRef) : SymAgent :=
  match r.kind with
  | .varSym => var_add_ref a r.slot
  | .idSym => id_add_ref a r.slot
  | .scSym => sc_add_ref a r.slot
  | .intSym => int_add_ref a r.slot
  | .floatSym => float_add_ref a r.slot

/-- deallocate_symbol, VARIABLE_SYMBOL_TYPE case: remove from the
variable hash table, free the owned name string (no residue in the
model), return the record to the variable pool. -/
def deallocate_variable (a : SymAgent) (slot : Nat) : SymAgent :=
  { a with
    variable_hash_table := a.variable_hash_table.eraseP (fun s => s.slot == slot)
    variable_pool := a.variable_pool.release slot }

/-- deallocate_symbol, IDENTIFIER_SYMBOL_TYPE case. -/
def deallocate_identifier (a : SymAgent) (slot : Nat) : SymAgent :=
  { a with
    identifier_hash_table := a.identifier_hash_table.eraseP (fun s => s.slot == slot)
    identifier_pool := a.identifier_pool.release slot }

/-- deallocate_symbol, SYM_CONSTANT_SYMBOL_TYPE case: also frees the
owned name string. -/
def deallocate_sym_constant (a : SymAgent) (slot : Nat) : SymAgent :=
  { a with
    sym_constant_hash_table := a.sym_constant_hash_table.eraseP (fun s => s.slot == slot)
    sym_constant_pool := a.sym_constant_pool.release slot }

/-- deallocate_symbol, INT_CONSTANT_SYMBOL_TYPE case. -/
def deallocate_int_constant (a : SymAgent) (slot : Nat) : SymAgent :=
  { a with
    int_constant_hash_table := a.int_constant_hash_table.eraseP (fun s => s.slot == slot)
    int_constant_pool := a.int_constant_pool.release slot }

/-- deallocate_symbol, FLOAT_CONSTANT_SYMBOL_TYPE case. -/
def deallocate_float_constant (a : SymAgent) (slot : Nat) : SymAgent :=
  { a with
    float_constant_hash_table := a.float_constant_hash_table.eraseP (fun s => s.slot == slot)
    float_constant_pool := a.float_constant_pool.release slot }

/-- symbol_remove_ref: decrement the refcount; at zero, deallocate the
symbol.  A dangling pointer (no record with that slot) is a no-op in the
model; the C program would never dereference one. -/
def symbol_remove_ref (a : SymAgent) (r : SymRef) : SymAgent :=
  match r.kind with
  | .varSym =>
    match a.variable_hash_table.find? (fun s => s.slot == r.slot) with
    | none => a
    | some s =>
      if s.reference_count ≤ 1 then deallocate_variable a r.slot
      else
        let t := updateFirst (fun t => t.slot == r.slot)
          (fun t => { t with reference_count := t.reference_count - 1 })
          a.variable_hash_table
        { a with variable_hash_table := t }
  | .idSym =>
    match a.identifier_hash_table.find? (fun s => s.slot == r.slot) with
    | none => a
    | some s =>
      if s.reference_count ≤ 1 then deallocate_identifier a r.slot
      else
        let t := updateFirst (fun t => t.slot == r.slot)
          (fun t => { t with reference_count := t.reference_count - 1 })
          a.identifier_hash_table
        { a with identifier_hash_table := t }
  | .scSym =>
    match a.sym_constant_hash_table.find? (fun s => s.slot == r.slot) with
    | none => a
    | some s =>
      if s.reference_count ≤ 1 then deallocate_sym_constant a r.slot
      else
        let t := updateFirst (fun t => t.slot == r.slot)
          (fun t => { t with reference_count := t.reference_count - 1 })
          a.sym_constant_hash_table
        { a with sym_constant_hash_table := t }
  | .intSym =>
    match a.int_constant_hash_table.find? (fun s => s.slot == r.slot) with
    | none => a
    | some s =>
      if s.reference_count ≤ 1 then deallocate_int_constant a r.slot
      else
        let t := updateFirst (fun t => t.slot == r.slot)
          (fun t => { t with reference_count := t.reference_count - 1 })
          a.int_constant_hash_table
        { a with int_constant_hash_table := t }
  | .floatSym =>
    match a.float_constant_hash_table.find? (fun s => s.slot == r.slot) with
    | none => a
    | some s =>
      if s.reference_count ≤ 1 then deallocate_float_constant a r.slot
      else
        let t := updateFirst (fun t => t.slot == r.slot)
          (fun t => { t with reference_count := t.reference_count - 1 })
          a.float_constant_hash_table
        { a with float_constant_hash_table := t }

/-! #### make routines

Each make_xxx looks for an existing symbol; on a hit it adds a reference
and returns it, otherwise it allocates a record from the pool, fills it
with refcount 0, takes the next hash_id, adds one reference and pushes
the record onto the front of its hash bucket (add_to_hash_table inserts
at the bucket head).  The returned value is the symbol record the C
routine returns a pointer to. -/

/-- make_variable (symtab.cpp). -/
def make_variable (a : SymAgent) (name : String) : VarSym × SymAgent :=
  match find_variable a name with
  | some s =>
    ({ s with reference_count := s.reference_count + 1 },
     var_add_ref a s.slot)
  | none =>
    let r := get_next_symbol_hash_id a
    let p := r.2.variable_pool.allocate
    let sym : VarSym :=
      { slot := p.1, name := name, reference_count := 1, hash_id := r.1 }
    (sym, { r.2 with
      variable_pool := p.2
      variable_hash_table := sym :: r.2.variable_hash_table })

/-- make_sym_constant (symtab.cpp). -/
def make_sym_constant (a : SymAgent) (name : String) : SymConst × SymAgent :=
  match find_sym_constant a name with
  | some s =>
    ({ s with reference_count := s.reference_count + 1 },
     sc_add_ref a s.slot)
  | none =>
    let r := get_next_symbol_hash_id a
    let p := r.2.sym_constant_pool.allocate
    let sym : SymConst :=
      { slot := p.1, name := name, reference_count := 1, hash_id := r.1 }
    (sym, { r.2 with
      sym_constant_pool := p.2
      sym_constant_hash_table := sym :: r.2.sym_constant_hash_table })

/-- make_str_constant_no_find: creation without the find probe, used by
the rule namer when it already knows the name is fresh. -/
def make_sym_constant_no_find (a : SymAgent) (name : String) :
    SymConst × SymAgent :=
  let r := get_next_symbol_hash_id a
  let p := r.2.sym_constant_pool.allocate
  let sym : SymConst :=
    { slot := p.1, name := name, reference_count := 1, hash_id := r.1 }
  (sym, { r.2 with
    sym_constant_pool := p.2
    sym_constant_hash_table := sym :: r.2.sym_constant_hash_table })

/-- make_int_constant (symtab.cpp). -/
def make_int_constant (a : SymAgent) (value : Int) : IntConst × SymAgent :=
  match find_int_constant a value with
  | some s =>
    ({ s with reference_count := s.reference_count + 1 },
     int_add_ref a s.slot)
  | none =>
    let r := get_next_symbol_hash_id a
    let p := r.2.int_constant_pool.allocate
    let sym : IntConst :=
      { slot := p.1, value := value, reference_count := 1, hash_id := r.1 }
    (sym, { r.2 with
      int_constant_pool := p.2
      int_constant_hash_table := sym :: r.2.int_constant_hash_table })

/-- make_float_constant (symtab.cpp). -/
def make_float_constant (a : SymAgent) (value : Rat) : FloatConst × SymAgent :=
  match find_float_constant a value with
  | some s =>
    ({ s with reference_count := s.reference_count + 1 },
     float_add_ref a s.slot)
  | none =>
    let r := get_next_symbol_hash_id a
    let p := r.2.float_constant_pool.allocate
    let sym : FloatConst :=
      { slot := p.1, value := value, reference_count := 1, hash_id := r.1 }
    (sym, { r.2 with
      float_constant_pool := p.2
      float_constant_hash_table := sym :: r.2.float_constant_hash_table })

/-- The identifier letter normalisation of make_new_identifier: upper-case
an alphabetic letter, replace anything else by I. -/
def normalize_id_letter (c : Char) : Char :=
  if c.isAlpha then c.toUpper else 'I'

/-- Index of an A-Z letter into the id_counter array. -/
def idIndex (c : Char) : Nat :=
  c.toNat - 'A'.toNat

/-- make_new_identifier (symtab.cpp): identifiers are never content
interned; every call allocates a fresh record.  name_number 0 plays the
role of the NIL default argument: the number is drawn from the counter
for the letter, which is incremented; an explicit nonzero number is used
as given and forces the counter up to number + 1 when it was not already
larger. -/
def make_new_identifier (a : SymAgent) (name_letter : Char)
    (level : Int) (name_number : Nat) : IdSym × SymAgent :=
  let letter := normalize_id_letter name_letter
  let r := get_next_symbol_hash_id a
  let p := r.2.identifier_pool.allocate
  let idx := idIndex letter
  let current := r.2.id_counter.getD idx 0
  let nc :=
    if name_number = 0 then
      (current, r.2.id_counter.set idx (current + 1))
    else if name_number ≥ current then
      (name_number, r.2.id_counter.set idx (name_number + 1))
    else
      (name_number, r.2.id_counter)
  let sym : IdSym :=
    { slot := p.1, name_letter := letter, name_number := nc.1,
      level := level, smem_lti := false, reference_count := 1, hash_id := r.1 }
  (sym, { r.2 with
    identifier_pool := p.2
    id_counter := nc.2
    identifier_hash_table := sym :: r.2.identifier_hash_table })

/-! #### generate_new_sym_constant

The C routine loops: render prefix followed by the counter value, bump
the counter, stop as soon as the rendered name is not interned, then
intern it.  The loop is written with fuel so it reduces in the kernel;
the fuel chosen in generate_new_sym_constant always exceeds the number
of iterations, because names longer than every interned name are never
found and the rendered number eventually has more digits than the
longest interned name. -/

/-- Length of the longest interned symbolic-constant name. -/
def scMaxNameLen (a : SymAgent) : Nat :=
  a.sym_constant_hash_table.foldr (fun s m => max s.name.length m) 0

/-- The probe loop of generate_new_sym_constant.  The counter is bumped
once per rendered candidate, exactly as the post-increment in the
SNPRINTF call does. -/
def gnscLoop (pfx : String) : Nat → Nat → SymAgent → SymConst × Nat × SymAgent
  | 0, counter, a =>
    -- never reached with the fuel supplied by generate_new_sym_constant
    let (sym, a1) := make_sym_constant a (pfx ++ natToStr counter)
    (sym, counter + 1, a1)
  | fuel + 1, counter, a =>
    let name := pfx ++ natToStr counter
    if (find_sym_constant a name).isSome then
      gnscLoop pfx fuel (counter + 1) a
    else
      let (sym, a1) := make_sym_constant a name
      (sym, counter + 1, a1)

/-- generate_new_sym_constant (symtab.cpp): gensym of a fresh symbolic
constant; returns the new symbol, the final counter value (the C
routine updates the counter through a pointer) and the new state. -/
def generate_new_sym_constant (a : SymAgent) (pfx : String)
    (counter : Nat) : SymConst × Nat × SymAgent :=
  gnscLoop pfx (10 ^ scMaxNameLen a + 1) counter a

/-! #### reset_id_counters and the leak diagnostic -/

/-- The line print_identifier_ref_info emits for one live identifier:
a tab, an at-sign for long-term identifiers, the letter, the number,
an arrow, the refcount, and a newline (the SNPRINTF format strings
in symtab.cpp). -/
def identifier_ref_line (s : IdSym) : String :=
  "\t" ++ (if s.smem_lti then "@" else "")
    ++ String.singleton s.name_letter ++ natToStr s.name_number
    ++ " --> " ++ natToStr s.reference_count ++ "\n"

/-- The contents of the leaked-ids.txt file written by a refused
reset_id_counters: print_identifier_ref_info runs over the identifier
hash table and writes one line per identifier whose refcount is
positive. -/
def leaked_ids_lines (a : SymAgent) : List String :=
  (a.identifier_hash_table.filter (fun s => 0 < s.reference_count)).map
    identifier_ref_line

/-- Modelled from the spec: smem_count_ltis lives in the semantic-memory
sources, which are not in scope; per the spec it counts the identifiers
whose smem_lti back-reference is set. -/
def smem_count_ltis (a : SymAgent) : Nat :=
  (a.identifier_hash_table.filter (fun s => s.smem_lti)).length

/-- reset_id_counters (symtab.cpp): if identifiers remain and not all of
them are long-term, refuse, leave the state alone and emit the leak
diagnostic file; otherwise set the 26 counters to 1 and succeed.  The
result is (status, new state, lines of leaked-ids.txt); the trace and
XML warnings and the notification of the semantic-memory subsystem have
no footprint in the modelled state. -/
def reset_id_counters (a : SymAgent) : Bool × SymAgent × List String :=
  if a.identifier_hash_table.length ≠ 0 ∧
      a.identifier_hash_table.length ≠ smem_count_ltis a then
    (false, a, leaked_ids_lines a)
  else
    (true, { a with id_counter := List.replicate 26 1 }, [])

/-! #### The interner operation language (for the table invariants)

A run of the interner is a list of the operations the claims quantify
over, each applied to the evolving agent state. -/

/-- One interner operation. -/
inductive SymOp where
  | mkVariable (name : String)
  | mkSymConstant (name : String)
  | mkIntConstant (value : Int)
  | mkFloatConstant (value : Rat)
  | mkNewIdentifier (letter : Char) (level : Int) (number : Nat)
  | addRef (r : SymRef)
  | removeRef (r : SymRef)
  deriving DecidableEq, Repr

/-- Apply one operation (discarding the returned symbol). -/
def applyOp (a : SymAgent) : SymOp → SymAgent
  | .mkVariable name => (make_variable a name).2
  | .mkSymConstant name => (make_sym_constant a name).2
  | .mkIntConstant v => (make_int_constant a v).2
  | .mkFloatConstant v => (make_float_constant a v).2
  | .mkNewIdentifier letter level number =>
      (make_new_identifier a letter level number).2
  | .addRef r => symbol_add_ref a r
  | .removeRef r => symbol_remove_ref a r

/-- Run a sequence of interner operations. -/
def runOps (ops : List SymOp) (a : SymAgent) : SymAgent :=
  ops.foldl applyOp a

/-- An operation omits the identifier number argument unless it is a
make_new_identifier call with an explicit (nonzero) number. -/
def SymOp.noExplicitIdNumber : SymOp → Prop
  | .mkNewIdentifier _ _ number => number = 0
  | _ => True

instance : DecidablePred SymOp.noExplicitIdNumber := by
  intro op
  unfold SymOp.noExplicitIdNumber
  cases op <;> infer_instance

/-! #### The per-key uniqueness predicates of claim C1 -/

/-- At most one live variable per name: the live entries of the table
have pairwise distinct names. -/
def varKeysUnique (a : SymAgent) : Prop :=
  ((a.variable_hash_table.filter (fun s => 0 < s.reference_count)).map
    (fun s => s.name)).Nodup

/-- At most one live symbolic constant per name. -/
def scKeysUnique (a : SymAgent) : Prop :=
  ((a.sym_constant_hash_table.filter (fun s => 0 < s.reference_count)).map
    (fun s => s.name)).Nodup

/-- At most one live integer constant per value. -/
def intKeysUnique (a : SymAgent) : Prop :=
  ((a.int_constant_hash_table.filter (fun s => 0 < s.reference_count)).map
    (fun s => s.value)).Nodup

/-- At most one live float constant per value. -/
def floatKeysUnique (a : SymAgent) : Prop :=
  ((a.float_constant_hash_table.filter (fun s => 0 < s.reference_count)).map
    (fun s => s.value)).Nodup

/-- At most one live identifier per (letter, number) pair. -/
def idKeysUnique (a : SymAgent) : Prop :=
  ((a.identifier_hash_table.filter (fun s => 0 < s.reference_count)).map
    (fun s => (s.name_letter, s.name_number))).Nodup

instance (a : SymAgent) : Decidable (varKeysUnique a) := by
  unfold varKeysUnique; infer_instance

instance (a : SymAgent) : Decidable (scKeysUnique a) := by
  unfold scKeysUnique; infer_instance

instance (a : SymAgent) : Decidable (intKeysUnique a) := by
  unfold intKeysUnique; infer_instance

instance (a : SymAgent) : Decidable (floatKeysUnique a) := by
  unfold floatKeysUnique; infer_instance

instance (a : SymAgent) : Decidable (idKeysUnique a) := by
  unfold idKeysUnique; infer_instance

/-! ### The EBC learning gate (ebc.cpp, set_learning_for_instantiation) -/

/-- TOP_GOAL_LEVEL.  Modelled from the spec: the constant lives in a
kernel header that is not among the sources; the spec only compares the
match goal level against it, so its value (1, the level of the top
goal) never matters to the claims. -/
def TOP_GOAL_LEVEL : Int := 1

/-- The goal identifier data the gate reads: the identity of the goal
symbol (for the pointer comparisons of member_of_list) and its
allow_bottom_up_chunks flag. -/
structure GoalInfo where
  gid : Nat
  allow_bottom_up_chunks : Bool
  deriving DecidableEq, Repr

/-- The instantiation fields the gate reads. -/
structure Instantiation where
  match_goal : GoalInfo
  match_goal_level : Int
  deriving DecidableEq, Repr

/-- member_of_list: pointer membership in a cons list of goals. -/
def member_of_list (x : Nat) (l : List Nat) : Bool :=
  l.contains x

/-- The ebc_settings entries the gate reads. -/
structure LearningSettings where
  learning_on : Bool
  except_on : Bool
  only_on : Bool
  bottom_only : Bool
  deriving DecidableEq, Repr

/-- The chunker state the gate reads: settings and the two goal lists. -/
structure ChunkerGate where
  settings : LearningSettings
  chunk_free_problem_spaces : List Nat
  chunky_problem_spaces : List Nat
  deriving DecidableEq, Repr

/-- set_learning_for_instantiation (ebc.cpp): the four guards in source
order; the trace messages have no footprint in the result.  The value
returned is also the value stored into m_learning_on_for_instantiation. -/
def set_learning_for_instantiation (g : ChunkerGate)
    (inst : Instantiation) : Bool :=
  if !g.settings.learning_on || (inst.match_goal_level == TOP_GOAL_LEVEL) then
    false
  else if g.settings.except_on
      && member_of_list inst.match_goal.gid g.chunk_free_problem_spaces then
    false
  else if g.settings.only_on
      && !member_of_list inst.match_goal.gid g.chunky_problem_spaces then
    false
  else if g.settings.bottom_only
      && !inst.match_goal.allow_bottom_up_chunks then
    false
  else
    true

/-! ### The rule namer (ebc.cpp, generate_name_for_new_rule) -/

/-- The impasse type of a goal (gdatastructs.h values read in Step 3 of
the namer); anything outside the five named kinds takes the default
branch and contributes no suffix. -/
inductive ImpasseType where
  | constraintFailure | conflict | tie | opNoChange | stateNoChange
  | noneImpasse
  deriving DecidableEq, Repr

/-- Step 3 of the namer: the impasse suffix. -/
def impasse_suffix : ImpasseType → String
  | .constraintFailure => "*Failure"
  | .conflict => "*Conflict"
  | .tie => "*Tie"
  | .opNoChange => "*OpNoChange"
  | .stateNoChange => "*StateNoChange"
  | .noneImpasse => ""

/-- The naming style parameter. -/
inductive NamingStyle where
  | numberedFormat | ruleFormat
  deriving DecidableEq, BEq, Repr

/-- The rule type of the current learning attempt; every value other
than ebc_chunk takes the justification branch of Step 1. -/
inductive RuleType where
  | ebc_chunk | ebc_justification | ebc_no_rule
  deriving DecidableEq, Repr

/-- The chunker and agent state generate_name_for_new_rule reads and
writes: the interner, the prefixes (initialised to "chunk" and
"justify"), the per-cycle tallies, the naming counters, the learning
setting and naming style, the provenance of the triggering
instantiation m_inst, the impasse type of the goal above the match
goal, and the agent clock. -/
structure EBCState where
  symtab : SymAgent
  rule_type : RuleType
  chunk_name_pfx : String
  justification_name_pfx : String
  chunks_this_d_cycle : Nat
  justifications_this_d_cycle : Nat
  chunk_naming_counter : Nat
  justification_naming_counter : Nat
  learning_on : Bool
  naming_style : NamingStyle
  inst_prod : Option String
  inst_prod_naming_depth : Nat
  chunk_inst_prod_naming_depth : Nat
  higher_goal_impasse_type : ImpasseType
  init_count : Nat
  d_cycle_count : Nat
  deriving DecidableEq, Repr

/-- The rule prefix selected in Step 1. -/
def EBCState.rule_pfx (st : EBCState) : String :=
  match st.rule_type with
  | .ebc_chunk => st.chunk_name_pfx
  | _ => st.justification_name_pfx

/-- The per-cycle rule count selected in Step 1. -/
def EBCState.rule_number (st : EBCState) : Nat :=
  match st.rule_type with
  | .ebc_chunk => st.chunks_this_d_cycle
  | _ => st.justifications_this_d_cycle

/-- The naming counter selected in Step 1. -/
def EBCState.naming_counter (st : EBCState) : Nat :=
  match st.rule_type with
  | .ebc_chunk => st.chunk_naming_counter
  | _ => st.justification_naming_counter

/-- Write the naming counter selected in Step 1 back. -/
def EBCState.set_naming_counter (st : EBCState) (c : Nat) : EBCState :=
  match st.rule_type with
  | .ebc_chunk => { st with chunk_naming_counter := c }
  | _ => { st with justification_naming_counter := c }

/-- Steps 2 to 4 of generate_name_for_new_rule: the composed descriptive
name.  Step 2 appends, when the triggering instantiation has a
production, the depth segment (written only when the parent
instantiation's naming depth m_inst->prod_naming_depth is nonzero, and
showing that depth plus one, the value stored into m_chunk_inst) and a
star and the parent rule name.  Step 3 appends the impasse suffix of
the goal above the match goal; Step 4 appends the *t time segment with
the init count (only after a reinitialisation), the decision cycle and
the per-cycle rule count. -/
def descriptiveComposed (st : EBCState) : String :=
  (match st.inst_prod with
   | some parent =>
     st.rule_pfx
       ++ (if st.inst_prod_naming_depth ≠ 0 then
             "x" ++ natToStr (st.inst_prod_naming_depth + 1)
           else "")
       ++ "*" ++ parent
   | none => st.rule_pfx)
    ++ impasse_suffix st.higher_goal_impasse_type
    ++ "*t"
    ++ (if st.init_count ≠ 0 then natToStr (st.init_count + 1) ++ "-"
        else "")
    ++ natToStr st.d_cycle_count ++ "-" ++ natToStr st.rule_number

/-- generate_name_for_new_rule (ebc.cpp): returns the name of the
symbolic constant the routine returns, together with the updated state.
The numbered branch runs when learning is off or the numbered style is
configured; increment_counter is declared in a kernel header that is
not among the sources and is modelled from the spec, which describes
the numbered style as returning intern_sym_constant(prefix +
next_counter) with the counter incremented until the name is unique -
exactly the probe generate_new_sym_constant performs on the current
counter.  The descriptive branch composes
prefix [x depth * parent] impasse *t [init-] dcycle - seq, writes the
bumped naming depth into m_chunk_inst, and resolves a collision by
probing with a fresh suffix counter that starts at 2. -/
def generate_name_for_new_rule (st : EBCState) : String × EBCState :=
  if !st.learning_on || (st.naming_style == NamingStyle.numberedFormat) then
    let r := generate_new_sym_constant st.symtab st.rule_pfx st.naming_counter
    (r.1.name, ({ st with symtab := r.2.2 } : EBCState).set_naming_counter r.2.1)
  else
    let st1 :=
      match st.inst_prod with
      | some _ =>
        { st with
          chunk_inst_prod_naming_depth := st.inst_prod_naming_depth + 1 }
      | none => st
    let composed := descriptiveComposed st
    if (find_sym_constant st.symtab composed).isSome then
      let r := generate_new_sym_constant st.symtab composed 2
      (r.1.name, { st1 with symtab := r.2.2 })
    else
      let r := make_sym_constant_no_find st.symtab composed
      (r.1.name, { st1 with symtab := r.2 })

/-! ### The decider state-stack string (decider.cpp) -/

/-- The append loop of the depth-below-4 branch: a comma-space before
every goal except the first. -/
def stackJoinLoop (acc : String) (notFirstItem : Bool) :
    List String → String
  | [] => acc
  | g :: gs => stackJoinLoop (acc ++ (if notFirstItem then ", " else "") ++ g)
      true gs

/-- get_state_stack_string (decider.cpp): the goal stack is the chain
top_goal .. bottom_goal, passed as the top goal's printed form and the
printed forms of the goals below it.  Appends to the caller's string
and returns the stack depth. -/
def get_state_stack_string (stateStackStr : String) (top : String)
    (rest : List String) : String × Nat :=
  let soarStackDepth := 1 + rest.length
  if soarStackDepth < 4 then
    (stackJoinLoop stateStackStr false (top :: rest), soarStackDepth)
  else
    let second := rest.headD ""
    let bottom := rest.getLastD ""
    let aboveBottom := ((top :: rest).dropLast).getLastD ""
    (stateStackStr ++ top ++ ", " ++ second
       ++ (if soarStackDepth > 4 then " ... " else ", ")
       ++ aboveBottom ++ ", " ++ bottom,
     soarStackDepth)

/-! ### Shared lemmas about the list model -/

theorem length_updateFirst (p : α → Bool) (f : α → α) :
    ∀ l : List α, (updateFirst p f l).length = l.length := by
  intro l
  induction l with
  | nil => rfl
  | cons a as ih =>
    by_cases h : p a <;> simp [updateFirst, h, ih]

theorem find?_updateFirst_self (p : α → Bool) (f : α → α)
    (hp : ∀ a, p (f a) = p a) :
    ∀ l : List α, (updateFirst p f l).find? p = (l.find? p).map f := by
  intro l
  induction l with
  | nil => rfl
  | cons a as ih =>
    by_cases h : p a
    · simp [updateFirst, h, List.find?_cons, hp a]
    · simp [updateFirst, h, List.find?_cons, hp a, ih]

theorem mem_updateFirst (p : α → Bool) (f : α → α) (x : α) :
    ∀ l : List α, x ∈ updateFirst p f l → x ∈ l ∨ ∃ y ∈ l, x = f y := by
  intro l
  induction l with
  | nil => simp [updateFirst]
  | cons a as ih =>
    intro hx
    by_cases h : p a
    · rw [updateFirst, if_pos h] at hx
      rcases List.mem_cons.mp hx with rfl | hx2
      · exact Or.inr ⟨a, List.mem_cons_self a as, rfl⟩
      · exact Or.inl (List.mem_cons_of_mem a hx2)
    · rw [updateFirst, if_neg h] at hx
      rcases List.mem_cons.mp hx with rfl | hx2
      · exact Or.inl (List.mem_cons_self x as)
      · rcases ih hx2 with h1 | ⟨y, hy, rfl⟩
        · exact Or.inl (List.mem_cons_of_mem a h1)
        · exact Or.inr ⟨y, List.mem_cons_of_mem a hy, rfl⟩

/-- In a list whose keys are pairwise distinct, the first entry whose
key equals the key of a member is that member. -/
theorem find?_keyOf_eq_of_mem (keyOf : α → Nat) (s : α) :
    ∀ l : List α, s ∈ l → (l.map keyOf).Nodup →
      l.find? (fun x => keyOf x == keyOf s) = some s := by
  intro l
  induction l with
  | nil => simp
  | cons a as ih =>
    intro hmem hnd
    simp only [List.map_cons, List.nodup_cons, List.mem_map] at hnd
    rcases List.mem_cons.mp hmem with rfl | hs
    · exact List.find?_cons_of_pos _ (by simp)
    · have hne : keyOf a ≠ keyOf s := by
        intro he
        exact hnd.1 ⟨s, hs, he.symm⟩
      rw [List.find?_cons_of_neg _ (by simp [hne])]
      exact ih hs hnd.2

/-- Updating the first entry with a member's key, when keys are
pairwise distinct, updates exactly that member as seen by any search
predicate that is respected by the update. -/
theorem find?_updateFirst_keyOf (q : α → Bool) (keyOf : α → Nat)
    (f : α → α) (s : α) (hq : ∀ x, q (f x) = q x) :
    ∀ l : List α, l.find? q = some s → (l.map keyOf).Nodup →
      (updateFirst (fun x => keyOf x == keyOf s) f l).find? q = some (f s) := by
  intro l
  induction l with
  | nil => simp
  | cons a as ih =>
    intro hfind hnd
    simp only [List.map_cons, List.nodup_cons, List.mem_map] at hnd
    by_cases hqa : q a
    · rw [List.find?_cons_of_pos _ hqa, Option.some_inj] at hfind
      subst hfind
      rw [updateFirst, if_pos (by simp)]
      exact List.find?_cons_of_pos _ (by simp [hq a, hqa])
    · rw [List.find?_cons_of_neg _ hqa] at hfind
      have hs : s ∈ as := List.mem_of_find?_eq_some hfind
      have hne : keyOf a ≠ keyOf s := by
        intro he
        exact hnd.1 ⟨s, hs, he.symm⟩
      rw [updateFirst, if_neg (by simp [hne])]
      rw [List.find?_cons_of_neg _ hqa]
      exact ih hfind hnd.2

/-! ### Remaining definitions: spec-side descriptions and concrete states -/

/-- The tail of a comma-space separated listing: a comma-space before
every element. -/
def commaTail : List String → String
  | [] => ""
  | g :: gs => ", " ++ g ++ commaTail gs

/-- The comma-space separated listing of a goal stack, as the claim
describes the output of the depth-at-most-4 branches. -/
def commaSeparated : List String → String
  | [] => ""
  | g :: gs => g ++ commaTail gs

/-- The interner state components claim C8 enumerates: the contents of
the five hash tables (which carry every refcount) and the five pools
with their free lists.  The hash_id nonce and the identifier counters
are not among the claim's components. -/
def internerObs (a : SymAgent) :
    List VarSym × List IdSym × List SymConst × List IntConst ×
    List FloatConst × Pool × Pool × Pool × Pool × Pool :=
  (a.variable_hash_table, a.identifier_hash_table,
   a.sym_constant_hash_table, a.int_constant_hash_table,
   a.float_constant_hash_table,
   a.variable_pool, a.identifier_pool, a.sym_constant_pool,
   a.int_constant_pool, a.float_constant_pool)

/-- intern followed by release of the returned reference, variables. -/
def internReleaseVariable (a : SymAgent) (name : String) : SymAgent :=
  let r := make_variable a name
  symbol_remove_ref r.2 ⟨SymKind.varSym, r.1.slot⟩

/-- intern followed by release of the returned reference, symbolic
constants. -/
def internReleaseSymConstant (a : SymAgent) (name : String) : SymAgent :=
  let r := make_sym_constant a name
  symbol_remove_ref r.2 ⟨SymKind.scSym, r.1.slot⟩

/-- intern followed by release of the returned reference, integer
constants. -/
def internReleaseIntConstant (a : SymAgent) (value : Int) : SymAgent :=
  let r := make_int_constant a value
  symbol_remove_ref r.2 ⟨SymKind.intSym, r.1.slot⟩

/-- intern followed by release of the returned reference, float
constants. -/
def internReleaseFloatConstant (a : SymAgent) (value : Rat) : SymAgent :=
  let r := make_float_constant a value
  symbol_remove_ref r.2 ⟨SymKind.floatSym, r.1.slot⟩

/-- make_new_identifier followed by release of the returned reference. -/
def internReleaseIdentifier (a : SymAgent) (letter : Char) (level : Int)
    (number : Nat) : SymAgent :=
  let r := make_new_identifier a letter level number
  symbol_remove_ref r.2 ⟨SymKind.idSym, r.1.slot⟩

/-- The concrete state of the claimed boundary scenario for the
descriptive rule namer: learning on, descriptive style, chunk kind,
init_count 0, d_cycle_count 42, three chunks so far this cycle, the
triggering instantiation built from production mv at naming depth 0
(so the composed depth of the new rule is 1), and a Tie impasse on the
goal above the match goal. -/
def c2state : EBCState where
  symtab := initAgent
  rule_type := .ebc_chunk
  chunk_name_pfx := "chunk"
  justification_name_pfx := "justify"
  chunks_this_d_cycle := 3
  justifications_this_d_cycle := 0
  chunk_naming_counter := 0
  justification_naming_counter := 0
  learning_on := true
  naming_style := .ruleFormat
  inst_prod := some "mv"
  inst_prod_naming_depth := 0
  chunk_inst_prod_naming_depth := 0
  higher_goal_impasse_type := .tie
  init_count := 0
  d_cycle_count := 42

/-- Interning the string constant state once on the initial agent. -/
def c4_once : SymConst × SymAgent := make_sym_constant initAgent "state"

/-- Interning state a second time. -/
def c4_twice : SymConst × SymAgent := make_sym_constant c4_once.2 "state"

/-- The reference returned by the intern calls. -/
def c4_ref : SymRef := ⟨SymKind.scSym, c4_twice.1.slot⟩

/-- One release of the returned reference. -/
def c4_release1 : SymAgent := symbol_remove_ref c4_twice.2 c4_ref

/-- A second release of the returned reference. -/
def c4_release2 : SymAgent := symbol_remove_ref c4_release1 c4_ref

/-- An agent state holding one live short-term identifier, B1. -/
def c3_leak_state : SymAgent := (make_new_identifier initAgent 'B' 1 0).2

/-! ### Shared lemmas (continued) -/

theorem stackJoinLoop_eq_commaTail (l : List String) :
    ∀ acc : String, stackJoinLoop acc true l = acc ++ commaTail l := by
  induction l with
  | nil => intro acc; simp [stackJoinLoop, commaTail]
  | cons g gs ih =>
    intro acc
    rw [stackJoinLoop, if_pos rfl, ih, commaTail]
    simp [String.append_assoc]

theorem stackJoinLoop_false (acc : String) (g : String) (gs : List String) :
    stackJoinLoop acc false (g :: gs) = acc ++ commaSeparated (g :: gs) := by
  rw [stackJoinLoop, if_neg (by simp), stackJoinLoop_eq_commaTail,
    commaSeparated]
  simp [String.append_assoc]

/-! ### Claim C7: the learning gate -/

/-- C7: set_learning_for_instantiation returns false (ineligible)
exactly when one of the four guards fires: learning globally off or the
match goal at the top level; except mode with the match goal in the
chunk-free list; only mode with the match goal outside the chunky list;
bottom-only mode with the match goal's allow_bottom_up_chunks flag
cleared.  Otherwise it returns true, and in particular a top-level
firing is never eligible. -/
theorem C7_learning_gate_iff (g : ChunkerGate) (inst : Instantiation) :
    (set_learning_for_instantiation g inst = false ↔
      ((g.settings.learning_on = false
          ∨ inst.match_goal_level = TOP_GOAL_LEVEL)
        ∨ (g.settings.except_on = true
          ∧ inst.match_goal.gid ∈ g.chunk_free_problem_spaces)
        ∨ (g.settings.only_on = true
          ∧ inst.match_goal.gid ∉ g.chunky_problem_spaces)
        ∨ (g.settings.bottom_only = true
          ∧ inst.match_goal.allow_bottom_up_chunks = false)))
    ∧ (inst.match_goal_level = TOP_GOAL_LEVEL →
        set_learning_for_instantiation g inst = false) := by
  constructor
  · unfold set_learning_for_instantiation member_of_list
    split_ifs with h1 h2 h3 h4 <;> simp_all
  · intro h
    unfold set_learning_for_instantiation
    rw [if_pos (by simp [h])]

/-! ### ASCII facts about the identifier letter normalisation -/

theorem charOfNat_toNat (n : Nat) (h : n < 55296) :
    (Char.ofNat n).toNat = n := by
  have hv : n.isValidChar := Or.inl h
  simp [Char.ofNat, hv, Char.ofNatAux, Char.toNat, UInt32.toNat,
    BitVec.toNat_ofNatLt]

theorem isLower_toNat (c : Char) (h : c.isLower = true) :
    97 ≤ c.toNat ∧ c.toNat ≤ 122 := by
  simp only [Char.isLower, Bool.and_eq_true, decide_eq_true_eq,
    UInt32.le_def, BitVec.le_def] at h
  simpa [Char.toNat, UInt32.toNat] using h

theorem isUpper_toNat (c : Char) (h : c.isUpper = true) :
    65 ≤ c.toNat ∧ c.toNat ≤ 90 := by
  simp only [Char.isUpper, Bool.and_eq_true, decide_eq_true_eq,
    UInt32.le_def, BitVec.le_def] at h
  simpa [Char.toNat, UInt32.toNat] using h

theorem lower_toUpper_toNat (c : Char) (h : c.isLower = true) :
    (c.toUpper).toNat = c.toNat - 32 := by
  have hb := isLower_toNat c h
  have hcond : c.toNat ≥ 97 ∧ c.toNat ≤ 122 := ⟨hb.1, hb.2⟩
  simp only [Char.toUpper, hcond, if_true]
  exact charOfNat_toNat _ (by omega)

theorem upper_toUpper (c : Char) (h : c.isUpper = true) : c.toUpper = c := by
  have hb := isUpper_toNat c h
  have hcond : ¬ (c.toNat ≥ 97 ∧ c.toNat ≤ 122) := by omega
  simp only [Char.toUpper, hcond, if_false]

/-- The normalised identifier letter is always in the A-Z band. -/
theorem normalize_id_letter_range (c : Char) :
    65 ≤ (normalize_id_letter c).toNat
      ∧ (normalize_id_letter c).toNat ≤ 90 := by
  unfold normalize_id_letter
  by_cases ha : c.isAlpha
  · rw [if_pos ha]
    rcases Bool.or_eq_true _ _ |>.mp ha with hu | hl
    · rw [upper_toUpper c hu]
      exact isUpper_toNat c hu
    · rw [lower_toUpper_toNat c hl]
      have := isLower_toNat c hl
      omega
  · rw [if_neg ha]
    decide

/-- The id_counter index of a normalised letter is inside the array. -/
theorem idIndex_normalize_lt (c : Char) :
    idIndex (normalize_id_letter c) < 26 := by
  have hr := normalize_id_letter_range c
  unfold idIndex
  rw [show 'A'.toNat = 65 from rfl]
  omega

/-! ### Claim C9: the decider state-stack string -/

/-- C9: get_state_stack_string returns the stack depth in every case;
at depth at most 4 (both the below-4 loop and the exactly-4 branch) the
output lists every goal from top to bottom separated by comma-space,
and at depth above 4 it lists the top two goals, an ellipsis, and the
bottom two goals. -/
theorem C9_state_stack_string (top : String) (rest : List String) :
    (get_state_stack_string "" top rest).2 = 1 + rest.length
    ∧ (1 + rest.length ≤ 4 →
        (get_state_stack_string "" top rest).1 = commaSeparated (top :: rest))
    ∧ (∀ g1 mid p q, rest = g1 :: (mid ++ [p, q]) → mid ≠ [] →
        (get_state_stack_string "" top rest).1
          = top ++ ", " ++ g1 ++ " ... " ++ p ++ ", " ++ q) := by
  refine ⟨?_, ?_, ?_⟩
  · simp only [get_state_stack_string]
    split <;> rfl
  · intro hle
    by_cases hlt : 1 + rest.length < 4
    · simp only [get_state_stack_string, if_pos hlt]
      rw [stackJoinLoop_false, String.empty_append]
    · have h4 : rest.length = 3 := by omega
      obtain ⟨g1, g2, g3, rfl⟩ := List.length_eq_three.mp h4
      simp only [get_state_stack_string]
      norm_num
      simp [commaSeparated, commaTail, String.append_assoc,
        String.empty_append, String.append_empty]
  · intro g1 mid p q hrest hmid
    subst hrest
    have hpos : 0 < mid.length := List.length_pos.mpr hmid
    have hlast : (g1 :: (mid ++ [p, q])).getLastD "" = q := by
      rw [show g1 :: (mid ++ [p, q]) = (g1 :: (mid ++ [p])) ++ [q] by simp]
      exact List.getLastD_concat _ _ _
    have hdrop : (top :: g1 :: (mid ++ [p, q])).dropLast
        = top :: g1 :: (mid ++ [p]) := by
      rw [show top :: g1 :: (mid ++ [p, q]) = (top :: g1 :: (mid ++ [p])) ++ [q]
        by simp]
      exact List.dropLast_concat
    have habove : (top :: g1 :: (mid ++ [p])).getLastD "" = p := by
      rw [show top :: g1 :: (mid ++ [p]) = (top :: g1 :: mid) ++ [p] by simp]
      exact List.getLastD_concat _ _ _
    simp only [get_state_stack_string]
    rw [if_neg (by simp; omega), if_pos (by simp; omega)]
    rw [show (g1 :: (mid ++ [p, q])).headD "" = g1 from rfl]
    rw [hlast, hdrop, habove, String.empty_append]

/-- Witness for C9 at a depth-6 stack. -/
theorem C9_state_stack_string_witness :
    (get_state_stack_string "" "S1" ["S2", "S3", "S4", "S5", "S6"]).2 = 6
    ∧ (get_state_stack_string "" "S1" ["S2", "S3", "S4", "S5", "S6"]).1
        = "S1, S2 ... S5, S6" := by
  have h := C9_state_stack_string "S1" ["S2", "S3", "S4", "S5", "S6"]
  refine ⟨h.1.trans (by norm_num), ?_⟩
  have h2 := h.2.2 "S2" ["S3", "S4"] "S5" "S6" rfl (by decide)
  exact h2.trans (by decide)

/-! ### Claim C5: make_new_identifier -/

/-- C5: with the number argument omitted (the NIL default, 0) the new
identifier's number is the pre-call counter of the normalised letter
and the counter advances by one; with an explicit number n the
identifier is numbered n and the counter is forced to
max(counter, n + 1); the letter is upper-cased when alphabetic and
replaced by I otherwise; and the boundary scenario: from the initial
state, make_new_identifier q 1 50 yields Q50 with the Q counter at 51,
and a subsequent call with the number omitted yields Q51. -/
theorem C5_make_new_identifier (a : SymAgent) (letter : Char) (level : Int)
    (n : Nat) (hlen : a.id_counter.length = 26) (hn : n ≠ 0) :
    ((make_new_identifier a letter level 0).1.name_letter
        = (if letter.isAlpha then letter.toUpper else 'I')
      ∧ (make_new_identifier a letter level 0).1.name_number
        = a.id_counter.getD (idIndex (normalize_id_letter letter)) 0
      ∧ (make_new_identifier a letter level 0).2.id_counter.getD
          (idIndex (normalize_id_letter letter)) 0
        = a.id_counter.getD (idIndex (normalize_id_letter letter)) 0 + 1)
    ∧ ((make_new_identifier a letter level n).1.name_letter
        = (if letter.isAlpha then letter.toUpper else 'I')
      ∧ (make_new_identifier a letter level n).1.name_number = n
      ∧ (make_new_identifier a letter level n).2.id_counter.getD
          (idIndex (normalize_id_letter letter)) 0
        = max (a.id_counter.getD (idIndex (normalize_id_letter letter)) 0)
            (n + 1))
    ∧ ((make_new_identifier initAgent 'q' 1 50).1.name_letter = 'Q'
      ∧ (make_new_identifier initAgent 'q' 1 50).1.name_number = 50
      ∧ (make_new_identifier initAgent 'q' 1 50).2.id_counter.getD
          (idIndex 'Q') 0 = 51
      ∧ (make_new_identifier
          (make_new_identifier initAgent 'q' 1 50).2 'q' 1 0).1.name_letter
          = 'Q'
      ∧ (make_new_identifier
          (make_new_identifier initAgent 'q' 1 50).2 'q' 1 0).1.name_number
          = 51) := by
  have hidx : idIndex (normalize_id_letter letter) < 26 :=
    idIndex_normalize_lt letter
  have hidxlen : idIndex (normalize_id_letter letter) < a.id_counter.length :=
    by omega
  refine ⟨⟨rfl, rfl, ?_⟩, ⟨rfl, ?_, ?_⟩, by decide⟩
  · have hred : (make_new_identifier a letter level 0).2.id_counter
        = a.id_counter.set (idIndex (normalize_id_letter letter))
            (a.id_counter.getD (idIndex (normalize_id_letter letter)) 0 + 1) :=
      rfl
    rw [hred, List.getD_eq_getElem?_getD, List.getElem?_set_self hidxlen]
    rfl
  · simp only [make_new_identifier, get_next_symbol_hash_id, if_neg hn]
    split <;> rfl
  · by_cases hge : n ≥ a.id_counter.getD (idIndex (normalize_id_letter letter)) 0
    · have hred : (make_new_identifier a letter level n).2.id_counter
          = a.id_counter.set (idIndex (normalize_id_letter letter)) (n + 1) := by
        simp only [make_new_identifier, get_next_symbol_hash_id, if_neg hn,
          if_pos hge]
      rw [hred]
      simp only [List.getD_eq_getElem?_getD] at hge ⊢
      rw [List.getElem?_set_self hidxlen]
      simp only [Option.getD_some]
      omega
    · have hred : (make_new_identifier a letter level n).2.id_counter
          = a.id_counter := by
        simp only [make_new_identifier, get_next_symbol_hash_id, if_neg hn,
          if_neg hge]
      rw [hred]
      omega

/-- Witness for C5 at letter q, level 1, explicit number 50, on the
initial agent state. -/
theorem C5_make_new_identifier_witness :
    (initAgent.id_counter.length = 26 ∧ (50 : Nat) ≠ 0)
    ∧ (make_new_identifier initAgent 'q' 1 50).1.name_number = 50 := by
  refine ⟨⟨by decide, by decide⟩, ?_⟩
  exact (C5_make_new_identifier initAgent 'q' 1 50 (by decide) (by decide)).2.1.2.1

/-! ### The gensym probe: supporting lemmas for C6, C10 and C2 -/

theorem scName_le_foldr (l : List SymConst) (s : SymConst) (h : s ∈ l) :
    s.name.length ≤ l.foldr (fun t m => max t.name.length m) 0 := by
  induction l with
  | nil => cases h
  | cons t ts ih =>
    rcases List.mem_cons.mp h with rfl | hmem
    · simp
    · exact Nat.le_trans (ih hmem) (by simp)

theorem scName_le_maxLen (a : SymAgent) (s : SymConst)
    (h : s ∈ a.sym_constant_hash_table) : s.name.length ≤ scMaxNameLen a :=
  scName_le_foldr a.sym_constant_hash_table s h

theorem find_sym_constant_none_of_long (a : SymAgent) (name : String)
    (h : scMaxNameLen a < name.length) : find_sym_constant a name = none := by
  unfold find_sym_constant
  rw [List.find?_eq_none]
  intro s hs
  simp only [beq_iff_eq]
  intro he
  have := scName_le_maxLen a s hs
  rw [he] at this
  omega

theorem find_sym_constant_pfx_none (a : SymAgent) (pfx : String) (m : Nat)
    (h : 10 ^ scMaxNameLen a ≤ m) :
    find_sym_constant a (pfx ++ natToStr m) = none := by
  apply find_sym_constant_none_of_long
  rw [String.length_append]
  have := natToStr_length_gt (scMaxNameLen a) m h
  omega

theorem gnscLoop_eq (pfx : String) :
    ∀ (k fuel c : Nat) (a : SymAgent), k < fuel →
      (∀ j, j < k → (find_sym_constant a (pfx ++ natToStr (c + j))).isSome) →
      find_sym_constant a (pfx ++ natToStr (c + k)) = none →
      gnscLoop pfx fuel c a =
        ((make_sym_constant a (pfx ++ natToStr (c + k))).1, c + k + 1,
         (make_sym_constant a (pfx ++ natToStr (c + k))).2) := by
  intro k
  induction k with
  | zero =>
    intro fuel c a hfuel hpres hnone
    match fuel with
    | f + 1 =>
      rw [gnscLoop]
      rw [show c + 0 = c from rfl] at hnone
      rw [if_neg (by simp [hnone])]
      rfl
  | succ k ih =>
    intro fuel c a hfuel hpres hnone
    match fuel with
    | f + 1 =>
      rw [gnscLoop]
      have h0 : (find_sym_constant a (pfx ++ natToStr (c + 0))).isSome :=
        hpres 0 (Nat.succ_pos k)
      rw [show c + 0 = c from rfl] at h0
      rw [if_pos h0]
      have hres := ih f (c + 1) a (by omega)
        (fun j hj => by
          have := hpres (j + 1) (by omega)
          rwa [show c + (j + 1) = c + 1 + j by omega] at this)
        (by rwa [show c + 1 + k = c + (k + 1) by omega])
      rw [hres]
      rw [show c + 1 + k = c + (k + 1) by omega]

/-- The conditional characterisation of generate_new_sym_constant: if
the names rendered from the counter values below c + k are all taken
and the one at c + k is free, the routine interns prefix followed by
c + k and leaves the counter at c + k + 1. -/
theorem gnsc_spec (a : SymAgent) (pfx : String) (c k : Nat)
    (hpres : ∀ j, j < k → (find_sym_constant a (pfx ++ natToStr (c + j))).isSome)
    (hnone : find_sym_constant a (pfx ++ natToStr (c + k)) = none) :
    generate_new_sym_constant a pfx c =
      ((make_sym_constant a (pfx ++ natToStr (c + k))).1, c + k + 1,
       (make_sym_constant a (pfx ++ natToStr (c + k))).2) := by
  have hk : k ≤ 10 ^ scMaxNameLen a := by
    by_contra hgt
    have h1 := hpres (10 ^ scMaxNameLen a) (by omega)
    rw [find_sym_constant_pfx_none a pfx _ (by omega)] at h1
    simp at h1
  exact gnscLoop_eq pfx k (10 ^ scMaxNameLen a + 1) c a (by omega) hpres hnone

theorem make_sym_constant_name (a : SymAgent) (name : String) :
    (make_sym_constant a name).1.name = name := by
  unfold make_sym_constant
  cases hf : find_sym_constant a name with
  | none => rfl
  | some s =>
    have := List.find?_some hf
    simp only [beq_iff_eq] at this
    simpa using this

theorem gnscLoop_name_shape (pfx : String) :
    ∀ (fuel c : Nat) (a : SymAgent),
      ∃ m, (gnscLoop pfx fuel c a).1.name = pfx ++ natToStr m := by
  intro fuel
  induction fuel with
  | zero =>
    intro c a
    exact ⟨c, make_sym_constant_name a _⟩
  | succ f ih =>
    intro c a
    rw [gnscLoop]
    by_cases h : (find_sym_constant a (pfx ++ natToStr c)).isSome
    · rw [if_pos h]
      exact ih (c + 1) a
    · rw [if_neg h]
      exact ⟨c, make_sym_constant_name a _⟩

/-! ### Claim C6: numbered-style chunk naming -/

/-- C6: in general the gensym probe interns the prefix followed by the
first counter value from the current one upward whose rendering is not
already interned, leaving the counter one past it; in particular, with
the chunk prefix and counter 7, a fresh chunk7 is returned with the
counter at 8, and when chunk7 is already interned, chunk8 is returned
with the counter at 9. -/
theorem C6_numbered_style :
    (∀ (a : SymAgent) (pfx : String) (c k : Nat),
      (∀ j, j < k → (find_sym_constant a (pfx ++ natToStr (c + j))).isSome) →
      find_sym_constant a (pfx ++ natToStr (c + k)) = none →
      (generate_new_sym_constant a pfx c).1.name = pfx ++ natToStr (c + k)
        ∧ (generate_new_sym_constant a pfx c).2.1 = c + k + 1)
    ∧ (generate_new_sym_constant initAgent "chunk" 7).1.name = "chunk7"
    ∧ (generate_new_sym_constant initAgent "chunk" 7).2.1 = 8
    ∧ (find_sym_constant (generate_new_sym_constant initAgent "chunk" 7).2.2
        "chunk7").isSome = true
    ∧ (generate_new_sym_constant (make_sym_constant initAgent "chunk7").2
        "chunk" 7).1.name = "chunk8"
    ∧ (generate_new_sym_constant (make_sym_constant initAgent "chunk7").2
        "chunk" 7).2.1 = 9 := by
  refine ⟨?_, by decide, by decide, by decide, by decide, by decide⟩
  intro a pfx c k hpres hnone
  rw [gnsc_spec a pfx c k hpres hnone]
  exact ⟨make_sym_constant_name a _, rfl⟩

/-- Witness for C6 at the initial agent, chunk prefix, counter 7. -/
theorem C6_numbered_style_witness :
    (generate_new_sym_constant initAgent "chunk" 7).1.name
        = "chunk" ++ natToStr (7 + 0)
    ∧ (generate_new_sym_constant initAgent "chunk" 7).2.1 = 7 + 0 + 1 := by
  exact C6_numbered_style.1 initAgent "chunk" 7 0
    (fun j hj => absurd hj (by omega)) (by decide)

/-! ### Claim C10: learning off forces the numbered format -/

/-- C10: with the global learning setting off, the rule namer produces
the numbered-format name whatever naming style is configured, and the
name has the numbered shape prefix-then-counter; the descriptive
composition can only run when learning is on and the style is
descriptive. -/
theorem C10_learning_off_numbered (st : EBCState)
    (h : st.learning_on = false) :
    (generate_name_for_new_rule st).1
      = (generate_name_for_new_rule
          { st with naming_style := NamingStyle.numberedFormat }).1
    ∧ ∃ k, (generate_name_for_new_rule st).1 = st.rule_pfx ++ natToStr k := by
  have hcond : (!st.learning_on
      || (st.naming_style == NamingStyle.numberedFormat)) = true := by
    rw [h]; rfl
  constructor
  · rw [generate_name_for_new_rule, if_pos hcond,
      generate_name_for_new_rule, if_pos (by rw [h]; rfl)]
    rfl
  · rw [generate_name_for_new_rule, if_pos hcond]
    exact gnscLoop_name_shape st.rule_pfx _ st.naming_counter st.symtab

/-- Witness for C10: the C2 scenario state with learning switched off
names through the numbered path. -/
theorem C10_learning_off_numbered_witness :
    (generate_name_for_new_rule { c2state with learning_on := false }).1
      = (generate_name_for_new_rule
          { c2state with learning_on := false
                         naming_style := NamingStyle.numberedFormat }).1 := by
  exact (C10_learning_off_numbered { c2state with learning_on := false } rfl).1

/-! ### Claim C2: the descriptive rule name -/

/-- On the descriptive path the final name extends the composed name:
either the composed name itself, or, after a collision, the composed
name with the probe's numeric suffix. -/
theorem generate_name_descriptive_extends (st : EBCState)
    (hl : st.learning_on = true)
    (hs : st.naming_style = NamingStyle.ruleFormat) :
    ∃ t, (generate_name_for_new_rule st).1 = descriptiveComposed st ++ t := by
  have hcond : ¬ ((!st.learning_on
      || (st.naming_style == NamingStyle.numberedFormat)) = true) := by
    rw [hl, hs]
    decide
  rw [generate_name_for_new_rule, if_neg hcond]
  by_cases h : (find_sym_constant st.symtab (descriptiveComposed st)).isSome
  · rw [if_pos h]
    obtain ⟨m, hm⟩ := gnscLoop_name_shape (descriptiveComposed st)
      (10 ^ scMaxNameLen st.symtab + 1) 2 st.symtab
    exact ⟨natToStr m, hm⟩
  · rw [if_neg h]
    exact ⟨"", (String.append_empty _).symm⟩

/-- C2 counterexample: in the claimed boundary scenario the composed
depth is 1, so the parent instantiation's naming depth is 0, and the
routine writes no x1 segment: it returns chunk*mv*Tie*t42-3 rather
than the claimed chunkx1*mv*Tie*t42-3. -/
theorem C2_depth_segment_cex :
    (generate_name_for_new_rule c2state).1 = "chunk*mv*Tie*t42-3"
    ∧ (generate_name_for_new_rule c2state).1 ≠ "chunkx1*mv*Tie*t42-3" := by
  exact ⟨by decide, by decide⟩

/-- C2 amended: the boundary scenario returns chunk*mv*Tie*t42-3; in
general, when learning is on, the style is descriptive and the
triggering instantiation has a production, the name starts with the
prefix, then the depth segment x(parent depth + 1) written only when
the parent instantiation's naming depth is nonzero, then a star and
the parent rule name; the whole segment is omitted exactly when the
instantiation has no production, in which case the name goes straight
from the prefix to the impasse suffix and the *t time segment. -/
theorem C2_descriptive_composition :
    (generate_name_for_new_rule c2state).1 = "chunk*mv*Tie*t42-3"
    ∧ (∀ (st : EBCState) (parent : String), st.learning_on = true →
        st.naming_style = NamingStyle.ruleFormat →
        st.inst_prod = some parent →
        ∃ rest, (generate_name_for_new_rule st).1
          = st.rule_pfx
            ++ ((if st.inst_prod_naming_depth ≠ 0 then
                  "x" ++ natToStr (st.inst_prod_naming_depth + 1)
                 else "")
              ++ ("*" ++ (parent ++ rest))))
    ∧ (∀ st : EBCState, st.learning_on = true →
        st.naming_style = NamingStyle.ruleFormat →
        st.inst_prod = none →
        ∃ rest, (generate_name_for_new_rule st).1
          = st.rule_pfx
            ++ (impasse_suffix st.higher_goal_impasse_type
              ++ ("*t" ++ rest))) := by
  refine ⟨by decide, ?_, ?_⟩
  · intro st parent hl hs hp
    obtain ⟨t, ht⟩ := generate_name_descriptive_extends st hl hs
    rw [descriptiveComposed] at ht
    simp only [hp] at ht
    refine ⟨impasse_suffix st.higher_goal_impasse_type ++ ("*t"
      ++ ((if st.init_count ≠ 0 then natToStr (st.init_count + 1) ++ "-"
           else "")
        ++ (natToStr st.d_cycle_count ++ ("-"
          ++ (natToStr st.rule_number ++ t))))), ?_⟩
    rw [ht]
    simp [String.append_assoc]
  · intro st hl hs hp
    obtain ⟨t, ht⟩ := generate_name_descriptive_extends st hl hs
    rw [descriptiveComposed] at ht
    simp only [hp] at ht
    refine ⟨(if st.init_count ≠ 0 then natToStr (st.init_count + 1) ++ "-"
          else "")
        ++ (natToStr st.d_cycle_count ++ ("-"
          ++ (natToStr st.rule_number ++ t))), ?_⟩
    rw [ht]
    simp [String.append_assoc]

/-- Witness for C2 at the boundary scenario with parent naming depth 1
(composed depth 2): the theorem's second conjunct applied there. -/
theorem C2_descriptive_composition_witness :
    ∃ rest, (generate_name_for_new_rule
        { c2state with inst_prod_naming_depth := 1 }).1
      = ({ c2state with inst_prod_naming_depth := 1 } : EBCState).rule_pfx
        ++ ((if ({ c2state with
                   inst_prod_naming_depth := 1 } : EBCState).inst_prod_naming_depth
                ≠ 0 then
              "x" ++ natToStr (({ c2state with
                inst_prod_naming_depth := 1 } : EBCState).inst_prod_naming_depth
                  + 1)
             else "")
          ++ ("*" ++ ("mv" ++ rest))) :=
  C2_descriptive_composition.2.1
    { c2state with inst_prod_naming_depth := 1 } "mv" rfl rfl rfl

end Soar

namespace Soar

/-- Witness for C7: a top-level firing is refused. -/
theorem C7_learning_gate_iff_witness :
    set_learning_for_instantiation
      ⟨⟨true, false, false, false⟩, [], []⟩
      ⟨⟨0, true⟩, TOP_GOAL_LEVEL⟩ = false :=
  (C7_learning_gate_iff ⟨⟨true, false, false, false⟩, [], []⟩
    ⟨⟨0, true⟩, TOP_GOAL_LEVEL⟩).2 rfl

/-! ### Claim C4: idempotence of the interning operations -/

/-- C4: for each of the four content-interned kinds, interning a key
whose live symbol exists returns that same symbol (same slot and
identity) with its refcount one higher, leaves it findable with the
raised refcount, and adds no table entry; and the boundary scenario:
interning state twice yields refcount 2, one release leaves it at 1
and findable, a second release removes it so find returns none. -/
theorem C4_intern_idempotent :
    (∀ (a : SymAgent) (name : String) (s : VarSym),
      find_variable a name = some s →
      (a.variable_hash_table.map (fun t => t.slot)).Nodup →
      (make_variable a name).1
          = { s with reference_count := s.reference_count + 1 }
        ∧ find_variable (make_variable a name).2 name
          = some { s with reference_count := s.reference_count + 1 }
        ∧ (make_variable a name).2.variable_hash_table.length
          = a.variable_hash_table.length)
    ∧ (∀ (a : SymAgent) (name : String) (s : SymConst),
      find_sym_constant a name = some s →
      (a.sym_constant_hash_table.map (fun t => t.slot)).Nodup →
      (make_sym_constant a name).1
          = { s with reference_count := s.reference_count + 1 }
        ∧ find_sym_constant (make_sym_constant a name).2 name
          = some { s with reference_count := s.reference_count + 1 }
        ∧ (make_sym_constant a name).2.sym_constant_hash_table.length
          = a.sym_constant_hash_table.length)
    ∧ (∀ (a : SymAgent) (value : Int) (s : IntConst),
      find_int_constant a value = some s →
      (a.int_constant_hash_table.map (fun t => t.slot)).Nodup →
      (make_int_constant a value).1
          = { s with reference_count := s.reference_count + 1 }
        ∧ find_int_constant (make_int_constant a value).2 value
          = some { s with reference_count := s.reference_count + 1 }
        ∧ (make_int_constant a value).2.int_constant_hash_table.length
          = a.int_constant_hash_table.length)
    ∧ (∀ (a : SymAgent) (value : Rat) (s : FloatConst),
      find_float_constant a value = some s →
      (a.float_constant_hash_table.map (fun t => t.slot)).Nodup →
      (make_float_constant a value).1
          = { s with reference_count := s.reference_count + 1 }
        ∧ find_float_constant (make_float_constant a value).2 value
          = some { s with reference_count := s.reference_count + 1 }
        ∧ (make_float_constant a value).2.float_constant_hash_table.length
          = a.float_constant_hash_table.length)
    ∧ c4_twice.1.reference_count = 2
    ∧ (find_sym_constant c4_release1 "state").map
        (fun s => s.reference_count) = some 1
    ∧ find_sym_constant c4_release2 "state" = none := by
  refine ⟨?_, ?_, ?_, ?_, by decide, by decide, by decide⟩
  · intro a name s hf hnd
    have hf2 : a.variable_hash_table.find? (fun t => t.name == name) = some s := hf
    simp only [make_variable, hf]
    refine ⟨trivial, ?_, ?_⟩
    · exact find?_updateFirst_keyOf (fun t => t.name == name)
        (fun t => t.slot)
        (fun t => { t with reference_count := t.reference_count + 1 })
        s (fun x => rfl) a.variable_hash_table hf2 hnd
    · exact length_updateFirst _ _ _
  · intro a name s hf hnd
    have hf2 : a.sym_constant_hash_table.find? (fun t => t.name == name) = some s := hf
    simp only [make_sym_constant, hf]
    refine ⟨trivial, ?_, ?_⟩
    · exact find?_updateFirst_keyOf (fun t => t.name == name)
        (fun t => t.slot)
        (fun t => { t with reference_count := t.reference_count + 1 })
        s (fun x => rfl) a.sym_constant_hash_table hf2 hnd
    · exact length_updateFirst _ _ _
  · intro a v s hf hnd
    have hf2 : a.int_constant_hash_table.find? (fun t => t.value == v) = some s := hf
    simp only [make_int_constant, hf]
    refine ⟨trivial, ?_, ?_⟩
    · exact find?_updateFirst_keyOf (fun t => t.value == v)
        (fun t => t.slot)
        (fun t => { t with reference_count := t.reference_count + 1 })
        s (fun x => rfl) a.int_constant_hash_table hf2 hnd
    · exact length_updateFirst _ _ _
  · intro a v s hf hnd
    have hf2 : a.float_constant_hash_table.find? (fun t => t.value == v) = some s := hf
    simp only [make_float_constant, hf]
    refine ⟨trivial, ?_, ?_⟩
    · exact find?_updateFirst_keyOf (fun t => t.value == v)
        (fun t => t.slot)
        (fun t => { t with reference_count := t.reference_count + 1 })
        s (fun x => rfl) a.float_constant_hash_table hf2 hnd
    · exact length_updateFirst _ _ _

/-- Witness for C4: the second intern of state raises the refcount of
the live symbol from 1 to 2. -/
theorem C4_intern_idempotent_witness :
    (make_sym_constant c4_once.2 "state").1
      = { slot := 0, name := "state", reference_count := 1 + 1,
          hash_id := 137 } :=
  (C4_intern_idempotent.2.1 c4_once.2 "state"
    ⟨0, "state", 1, 137⟩ (by decide) (by decide)).1

end Soar

namespace Soar

/-! ### Claim C3: reset_id_counters and the leak diagnostic -/

/-- C3: on a state whose identifier table holds only live identifiers,
reset_id_counters refuses whenever some live identifier is short-term
(smem_lti unset): it returns failure, leaves the 26 id counters
untouched, and the leaked-ids.txt contents are one line per live
identifier of the form [@]letter number --> refcount (tab-prefixed and
newline-terminated, with the at-sign exactly for long-term
identifiers); when every live identifier is long-term (or none exist)
it returns success and sets every counter to 1. -/
theorem C3_reset_id_counters (a : SymAgent)
    (hlive : ∀ s ∈ a.identifier_hash_table, 0 < s.reference_count) :
    ((∃ s ∈ a.identifier_hash_table, s.smem_lti = false) →
        (reset_id_counters a).1 = false
        ∧ (reset_id_counters a).2.1.id_counter = a.id_counter
        ∧ (reset_id_counters a).2.2
          = a.identifier_hash_table.map (fun s =>
              "\t" ++ (if s.smem_lti then "@" else "")
                ++ String.singleton s.name_letter ++ natToStr s.name_number
                ++ " --> " ++ natToStr s.reference_count ++ "\n"))
    ∧ ((∀ s ∈ a.identifier_hash_table, s.smem_lti = true) →
        (reset_id_counters a).1 = true
        ∧ (reset_id_counters a).2.1.id_counter = List.replicate 26 1) := by
  constructor
  · rintro ⟨s, hs, hlti⟩
    have hne : a.identifier_hash_table.length ≠ 0 := by
      intro h0
      rw [List.length_eq_zero] at h0
      rw [h0] at hs
      cases hs
    have hflt : ¬ ((a.identifier_hash_table.filter
        (fun t => t.smem_lti)).length = a.identifier_hash_table.length) := by
      rw [List.filter_length_eq_length]
      intro hall
      have := hall s hs
      rw [hlti] at this
      cases this
    have hle := List.length_filter_le (fun t : IdSym => t.smem_lti)
      a.identifier_hash_table
    have hcond : a.identifier_hash_table.length ≠ 0
        ∧ a.identifier_hash_table.length ≠ smem_count_ltis a := by
      refine ⟨hne, ?_⟩
      unfold smem_count_ltis
      omega
    rw [reset_id_counters, if_pos hcond]
    refine ⟨rfl, rfl, ?_⟩
    have hfeq : a.identifier_hash_table.filter
        (fun t => 0 < t.reference_count) = a.identifier_hash_table :=
      List.filter_eq_self.mpr (fun t ht => by simpa using hlive t ht)
    show leaked_ids_lines a = _
    rw [leaked_ids_lines, hfeq]
    rfl
  · intro hall
    have hfeq : a.identifier_hash_table.filter
        (fun t => t.smem_lti) = a.identifier_hash_table :=
      List.filter_eq_self.mpr (fun t ht => by simpa using hall t ht)
    rw [reset_id_counters, if_neg ?_]
    · exact ⟨rfl, rfl⟩
    · intro hcond
      apply hcond.2
      unfold smem_count_ltis
      rw [hfeq]

/-- Witness for C3 on the one-leaked-identifier state: refusal, the
counters untouched, and one line for B1. -/
theorem C3_reset_id_counters_witness :
    (reset_id_counters c3_leak_state).1 = false
    ∧ (reset_id_counters c3_leak_state).2.1.id_counter
        = c3_leak_state.id_counter
    ∧ (reset_id_counters c3_leak_state).2.2
      = c3_leak_state.identifier_hash_table.map (fun s =>
          "\t" ++ (if s.smem_lti then "@" else "")
            ++ String.singleton s.name_letter ++ natToStr s.name_number
            ++ " --> " ++ natToStr s.reference_count ++ "\n") :=
  (C3_reset_id_counters c3_leak_state (by decide)).1
    ⟨⟨0, 'B', 1, 1, false, 1, 137⟩, by decide, rfl⟩

end Soar

namespace Soar

/-! ### Claim C1: per-key uniqueness of live symbols -/

theorem nodup_cons_key {κ : Type} [BEq κ] [LawfulBEq κ]
    (keyOf : α → κ) (x : α) (l : List α)
    (hfind : l.find? (fun t => keyOf t == keyOf x) = none)
    (hnd : (l.map keyOf).Nodup) : ((x :: l).map keyOf).Nodup := by
  rw [List.map_cons, List.nodup_cons]
  refine ⟨?_, hnd⟩
  intro hmem
  obtain ⟨t, ht, hteq⟩ := List.mem_map.mp hmem
  have := List.find?_eq_none.mp hfind t ht
  simp only [beq_iff_eq] at this
  exact this hteq

theorem nodup_map_eraseP (p : α → Bool) (keyOf : α → κ) (l : List α)
    (hnd : (l.map keyOf).Nodup) : ((l.eraseP p).map keyOf).Nodup :=
  List.Nodup.sublist (List.Sublist.map keyOf (List.eraseP_sublist l)) hnd

theorem mem_eraseP_subset (p : α → Bool) (l : List α) (x : α)
    (h : x ∈ l.eraseP p) : x ∈ l :=
  List.Sublist.subset (List.eraseP_sublist l) h

/-- The variable-name keys of the table stay pairwise distinct under
every interner operation. -/
theorem applyOp_var_nodup (a : SymAgent) (op : SymOp)
    (hv : (a.variable_hash_table.map (fun s => s.name)).Nodup) :
    ((applyOp a op).variable_hash_table.map (fun s => s.name)).Nodup := by
  cases op with
  | mkVariable name =>
    cases hfind : find_variable a name with
    | some s =>
      simp only [applyOp, make_variable, hfind]
      rw [show (var_add_ref a s.slot).variable_hash_table
          = updateFirst (fun t => t.slot == s.slot)
              (fun t => { t with reference_count := t.reference_count + 1 })
              a.variable_hash_table from rfl,
        map_updateFirst (fun t => t.slot == s.slot)
          (fun t => { t with reference_count := t.reference_count + 1 })
          (fun t => t.name) (fun t => rfl) a.variable_hash_table]
      exact hv
    | none =>
      simp only [applyOp, make_variable, hfind]
      refine nodup_cons_key (fun s : VarSym => s.name) _ _ ?_ hv
      rw [List.find?_eq_none]
      intro t ht
      have h2 := List.find?_eq_none.mp hfind t ht
      simpa using h2
  | mkSymConstant name =>
    cases hfind : find_sym_constant a name <;>
      simp only [applyOp, make_sym_constant, hfind] <;> exact hv
  | mkIntConstant v =>
    cases hfind : find_int_constant a v <;>
      simp only [applyOp, make_int_constant, hfind] <;> exact hv
  | mkFloatConstant v =>
    cases hfind : find_float_constant a v <;>
      simp only [applyOp, make_float_constant, hfind] <;> exact hv
  | mkNewIdentifier letter level number =>
    exact hv
  | addRef r =>
    obtain ⟨k, slot⟩ := r
    cases k with
    | varSym =>
      simp only [applyOp, symbol_add_ref, var_add_ref]
      rw [map_updateFirst (fun s => s.slot == slot)
        (fun s => { s with reference_count := s.reference_count + 1 })
        (fun s => s.name) (fun t => rfl) a.variable_hash_table]
      exact hv
    | idSym => exact hv
    | scSym => exact hv
    | intSym => exact hv
    | floatSym => exact hv
  | removeRef r =>
    obtain ⟨k, slot⟩ := r
    cases k with
    | varSym =>
      simp only [applyOp, symbol_remove_ref]
      cases hfind : a.variable_hash_table.find? (fun s => s.slot == slot) with
      | none => exact hv
      | some s =>
        simp only
        by_cases hrc : s.reference_count ≤ 1
        · rw [if_pos hrc]
          exact nodup_map_eraseP _ _ _ hv
        · rw [if_neg hrc]
          rw [map_updateFirst (fun t => t.slot == slot)
            (fun t => { t with reference_count := t.reference_count - 1 })
            (fun s => s.name) (fun t => rfl) a.variable_hash_table]
          exact hv
    | idSym =>
      simp only [applyOp, symbol_remove_ref]
      cases hfind : a.identifier_hash_table.find? (fun s => s.slot == slot) with
      | none => exact hv
      | some s =>
        simp only
        by_cases hrc : s.reference_count ≤ 1
        · rw [if_pos hrc]; exact hv
        · rw [if_neg hrc]; exact hv
    | scSym =>
      simp only [applyOp, symbol_remove_ref]
      cases hfind : a.sym_constant_hash_table.find? (fun s => s.slot == slot) with
      | none => exact hv
      | some s =>
        simp only
        by_cases hrc : s.reference_count ≤ 1
        · rw [if_pos hrc]; exact hv
        · rw [if_neg hrc]; exact hv
    | intSym =>
      simp only [applyOp, symbol_remove_ref]
      cases hfind : a.int_constant_hash_table.find? (fun s => s.slot == slot) with
      | none => exact hv
      | some s =>
        simp only
        by_cases hrc : s.reference_count ≤ 1
        · rw [if_pos hrc]; exact hv
        · rw [if_neg hrc]; exact hv
    | floatSym =>
      simp only [applyOp, symbol_remove_ref]
      cases hfind : a.float_constant_hash_table.find? (fun s => s.slot == slot) with
      | none => exact hv
      | some s =>
        simp only
        by_cases hrc : s.reference_count ≤ 1
        · rw [if_pos hrc]; exact hv
        · rw [if_neg hrc]; exact hv

end Soar

namespace Soar

/-- The symbolic-constant name keys of the table stay pairwise distinct under
every interner operation. -/
theorem applyOp_sc_nodup (a : SymAgent) (op : SymOp)
    (hv : (a.sym_constant_hash_table.map (fun s => s.name)).Nodup) :
    ((applyOp a op).sym_constant_hash_table.map (fun s => s.name)).Nodup := by
  cases op with
  | mkVariable name =>
    cases hfind : find_variable a name <;>
      simp only [applyOp, make_variable, hfind] <;> exact hv
  | mkSymConstant name =>
    cases hfind : find_sym_constant a name with
    | some s =>
      simp only [applyOp, make_sym_constant, hfind]
      rw [show (sc_add_ref a s.slot).sym_constant_hash_table
          = updateFirst (fun t => t.slot == s.slot)
              (fun t => { t with reference_count := t.reference_count + 1 })
              a.sym_constant_hash_table from rfl,
        map_updateFirst (fun t => t.slot == s.slot)
          (fun t => { t with reference_count := t.reference_count + 1 })
          (fun t => t.name) (fun t => rfl) a.sym_constant_hash_table]
      exact hv
    | none =>
      simp only [applyOp, make_sym_constant, hfind]
      refine nodup_cons_key (fun s : SymConst => s.name) _ _ ?_ hv
      rw [List.find?_eq_none]
      intro t ht
      have h2 := List.find?_eq_none.mp hfind t ht
      simpa using h2
  | mkIntConstant v =>
    cases hfind : find_int_constant a v <;>
      simp only [applyOp, make_int_constant, hfind] <;> exact hv
  | mkFloatConstant v =>
    cases hfind : find_float_constant a v <;>
      simp only [applyOp, make_float_constant, hfind] <;> exact hv
  | mkNewIdentifier letter level number =>
    exact hv
  | addRef r =>
    obtain ⟨k, slot⟩ := r
    cases k with
    | scSym =>
      simp only [applyOp, symbol_add_ref, sc_add_ref]
      rw [map_updateFirst (fun s => s.slot == slot)
        (fun s => { s with reference_count := s.reference_count + 1 })
        (fun s => s.name) (fun t => rfl) a.sym_constant_hash_table]
      exact hv
    | varSym => exact hv
    | idSym => exact hv
    | intSym => exact hv
    | floatSym => exact hv
  | removeRef r =>
    obtain ⟨k, slot⟩ := r
    cases k with
    | varSym =>
      simp only [applyOp, symbol_remove_ref]
      cases hfind : a.variable_hash_table.find? (fun s => s.slot == slot) with
      | none => exact hv
      | some s =>
        simp only
        by_cases hrc : s.reference_count ≤ 1
        · rw [if_pos hrc]; exact hv
        · rw [if_neg hrc]; exact hv
    | idSym =>
      simp only [applyOp, symbol_remove_ref]
      cases hfind : a.identifier_hash_table.find? (fun s => s.slot == slot) with
      | none => exact hv
      | some s =>
        simp only
        by_cases hrc : s.reference_count ≤ 1
        · rw [if_pos hrc]; exact hv
        · rw [if_neg hrc]; exact hv
    | scSym =>
      simp only [applyOp, symbol_remove_ref]
      cases hfind : a.sym_constant_hash_table.find? (fun s => s.slot == slot) with
      | none => exact hv
      | some s =>
        simp only
        by_cases hrc : s.reference_count ≤ 1
        · rw [if_pos hrc]
          exact nodup_map_eraseP _ _ _ hv
        · rw [if_neg hrc]
          rw [map_updateFirst (fun t => t.slot == slot)
            (fun t => { t with reference_count := t.reference_count - 1 })
            (fun s => s.name) (fun t => rfl) a.sym_constant_hash_table]
          exact hv
    | intSym =>
      simp only [applyOp, symbol_remove_ref]
      cases hfind : a.int_constant_hash_table.find? (fun s => s.slot == slot) with
      | none => exact hv
      | some s =>
        simp only
        by_cases hrc : s.reference_count ≤ 1
        · rw [if_pos hrc]; exact hv
        · rw [if_neg hrc]; exact hv
    | floatSym =>
      simp only [applyOp, symbol_remove_ref]
      cases hfind : a.float_constant_hash_table.find? (fun s => s.slot == slot) with
      | none => exact hv
      | some s =>
        simp only
        by_cases hrc : s.reference_count ≤ 1
        · rw [if_pos hrc]; exact hv
        · rw [if_neg hrc]; exact hv


/-- The integer-constant value keys of the table stay pairwise distinct under
every interner operation. -/
theorem applyOp_int_nodup (a : SymAgent) (op : SymOp)
    (hv : (a.int_constant_hash_table.map (fun s => s.value)).Nodup) :
    ((applyOp a op).int_constant_hash_table.map (fun s => s.value)).Nodup := by
  cases op with
  | mkVariable name =>
    cases hfind : find_variable a name <;>
      simp only [applyOp, make_variable, hfind] <;> exact hv
  | mkSymConstant name =>
    cases hfind : find_sym_constant a name <;>
      simp only [applyOp, make_sym_constant, hfind] <;> exact hv
  | mkIntConstant v =>
    cases hfind : find_int_constant a v with
    | some s =>
      simp only [applyOp, make_int_constant, hfind]
      rw [show (int_add_ref a s.slot).int_constant_hash_table
          = updateFirst (fun t => t.slot == s.slot)
              (fun t => { t with reference_count := t.reference_count + 1 })
              a.int_constant_hash_table from rfl,
        map_updateFirst (fun t => t.slot == s.slot)
          (fun t => { t with reference_count := t.reference_count + 1 })
          (fun t => t.value) (fun t => rfl) a.int_constant_hash_table]
      exact hv
    | none =>
      simp only [applyOp, make_int_constant, hfind]
      refine nodup_cons_key (fun s : IntConst => s.value) _ _ ?_ hv
      rw [List.find?_eq_none]
      intro t ht
      have h2 := List.find?_eq_none.mp hfind t ht
      simpa using h2
  | mkFloatConstant v =>
    cases hfind : find_float_constant a v <;>
      simp only [applyOp, make_float_constant, hfind] <;> exact hv
  | mkNewIdentifier letter level number =>
    exact hv
  | addRef r =>
    obtain ⟨k, slot⟩ := r
    cases k with
    | intSym =>
      simp only [applyOp, symbol_add_ref, int_add_ref]
      rw [map_updateFirst (fun s => s.slot == slot)
        (fun s => { s with reference_count := s.reference_count + 1 })
        (fun s => s.value) (fun t => rfl) a.int_constant_hash_table]
      exact hv
    | varSym => exact hv
    | idSym => exact hv
    | scSym => exact hv
    | floatSym => exact hv
  | removeRef r =>
    obtain ⟨k, slot⟩ := r
    cases k with
    | varSym =>
      simp only [applyOp, symbol_remove_ref]
      cases hfind : a.variable_hash_table.find? (fun s => s.slot == slot) with
      | none => exact hv
      | some s =>
        simp only
        by_cases hrc : s.reference_count ≤ 1
        · rw [if_pos hrc]; exact hv
        · rw [if_neg hrc]; exact hv
    | idSym =>
      simp only [applyOp, symbol_remove_ref]
      cases hfind : a.identifier_hash_table.find? (fun s => s.slot == slot) with
      | none => exact hv
      | some s =>
        simp only
        by_cases hrc : s.reference_count ≤ 1
        · rw [if_pos hrc]; exact hv
        · rw [if_neg hrc]; exact hv
    | scSym =>
      simp only [applyOp, symbol_remove_ref]
      cases hfind : a.sym_constant_hash_table.find? (fun s => s.slot == slot) with
      | none => exact hv
      | some s =>
        simp only
        by_cases hrc : s.reference_count ≤ 1
        · rw [if_pos hrc]; exact hv
        · rw [if_neg hrc]; exact hv
    | intSym =>
      simp only [applyOp, symbol_remove_ref]
      cases hfind : a.int_constant_hash_table.find? (fun s => s.slot == slot) with
      | none => exact hv
      | some s =>
        simp only
        by_cases hrc : s.reference_count ≤ 1
        · rw [if_pos hrc]
          exact nodup_map_eraseP _ _ _ hv
        · rw [if_neg hrc]
          rw [map_updateFirst (fun t => t.slot == slot)
            (fun t => { t with reference_count := t.reference_count - 1 })
            (fun s => s.value) (fun t => rfl) a.int_constant_hash_table]
          exact hv
    | floatSym =>
      simp only [applyOp, symbol_remove_ref]
      cases hfind : a.float_constant_hash_table.find? (fun s => s.slot == slot) with
      | none => exact hv
      | some s =>
        simp only
        by_cases hrc : s.reference_count ≤ 1
        · rw [if_pos hrc]; exact hv
        · rw [if_neg hrc]; exact hv


/-- The float-constant value keys of the table stay pairwise distinct under
every interner operation. -/
theorem applyOp_float_nodup (a : SymAgent) (op : SymOp)
    (hv : (a.float_constant_hash_table.map (fun s => s.value)).Nodup) :
    ((applyOp a op).float_constant_hash_table.map (fun s => s.value)).Nodup := by
  cases op with
  | mkVariable name =>
    cases hfind : find_variable a name <;>
      simp only [applyOp, make_variable, hfind] <;> exact hv
  | mkSymConstant name =>
    cases hfind : find_sym_constant a name <;>
      simp only [applyOp, make_sym_constant, hfind] <;> exact hv
  | mkIntConstant v =>
    cases hfind : find_int_constant a v <;>
      simp only [applyOp, make_int_constant, hfind] <;> exact hv
  | mkFloatConstant v =>
    cases hfind : find_float_constant a v with
    | some s =>
      simp only [applyOp, make_float_constant, hfind]
      rw [show (float_add_ref a s.slot).float_constant_hash_table
          = updateFirst (fun t => t.slot == s.slot)
              (fun t => { t with reference_count := t.reference_count + 1 })
              a.float_constant_hash_table from rfl,
        map_updateFirst (fun t => t.slot == s.slot)
          (fun t => { t with reference_count := t.reference_count + 1 })
          (fun t => t.value) (fun t => rfl) a.float_constant_hash_table]
      exact hv
    | none =>
      simp only [applyOp, make_float_constant, hfind]
      refine nodup_cons_key (fun s : FloatConst => s.value) _ _ ?_ hv
      rw [List.find?_eq_none]
      intro t ht
      have h2 := List.find?_eq_none.mp hfind t ht
      simpa using h2
  | mkNewIdentifier letter level number =>
    exact hv
  | addRef r =>
    obtain ⟨k, slot⟩ := r
    cases k with
    | floatSym =>
      simp only [applyOp, symbol_add_ref, float_add_ref]
      rw [map_updateFirst (fun s => s.slot == slot)
        (fun s => { s with reference_count := s.reference_count + 1 })
        (fun s => s.value) (fun t => rfl) a.float_constant_hash_table]
      exact hv
    | varSym => exact hv
    | idSym => exact hv
    | scSym => exact hv
    | intSym => exact hv
  | removeRef r =>
    obtain ⟨k, slot⟩ := r
    cases k with
    | varSym =>
      simp only [applyOp, symbol_remove_ref]
      cases hfind : a.variable_hash_table.find? (fun s => s.slot == slot) with
      | none => exact hv
      | some s =>
        simp only
        by_cases hrc : s.reference_count ≤ 1
        · rw [if_pos hrc]; exact hv
        · rw [if_neg hrc]; exact hv
    | idSym =>
      simp only [applyOp, symbol_remove_ref]
      cases hfind : a.identifier_hash_table.find? (fun s => s.slot == slot) with
      | none => exact hv
      | some s =>
        simp only
        by_cases hrc : s.reference_count ≤ 1
        · rw [if_pos hrc]; exact hv
        · rw [if_neg hrc]; exact hv
    | scSym =>
      simp only [applyOp, symbol_remove_ref]
      cases hfind : a.sym_constant_hash_table.find? (fun s => s.slot == slot) with
      | none => exact hv
      | some s =>
        simp only
        by_cases hrc : s.reference_count ≤ 1
        · rw [if_pos hrc]; exact hv
        · rw [if_neg hrc]; exact hv
    | intSym =>
      simp only [applyOp, symbol_remove_ref]
      cases hfind : a.int_constant_hash_table.find? (fun s => s.slot == slot) with
      | none => exact hv
      | some s =>
        simp only
        by_cases hrc : s.reference_count ≤ 1
        · rw [if_pos hrc]; exact hv
        · rw [if_neg hrc]; exact hv
    | floatSym =>
      simp only [applyOp, symbol_remove_ref]
      cases hfind : a.float_constant_hash_table.find? (fun s => s.slot == slot) with
      | none => exact hv
      | some s =>
        simp only
        by_cases hrc : s.reference_count ≤ 1
        · rw [if_pos hrc]
          exact nodup_map_eraseP _ _ _ hv
        · rw [if_neg hrc]
          rw [map_updateFirst (fun t => t.slot == slot)
            (fun t => { t with reference_count := t.reference_count - 1 })
            (fun s => s.value) (fun t => rfl) a.float_constant_hash_table]
          exact hv

end Soar

namespace Soar

/-- Under operations that never pass an explicit identifier number, the
identifier table keeps pairwise-distinct (letter, number) keys, every
identifier number stays below the counter of its letter, and the
counter array keeps its 26 entries. -/
theorem applyOp_id_invariant (a : SymAgent) (op : SymOp)
    (hop : op.noExplicitIdNumber)
    (hnd : (a.identifier_hash_table.map
        (fun s => (s.name_letter, s.name_number))).Nodup)
    (hbound : ∀ s ∈ a.identifier_hash_table,
        s.name_number < a.id_counter.getD (idIndex s.name_letter) 0)
    (hlen : a.id_counter.length = 26) :
    ((applyOp a op).identifier_hash_table.map
        (fun s => (s.name_letter, s.name_number))).Nodup
    ∧ (∀ s ∈ (applyOp a op).identifier_hash_table,
        s.name_number
          < (applyOp a op).id_counter.getD (idIndex s.name_letter) 0)
    ∧ (applyOp a op).id_counter.length = 26 := by
  cases op with
  | mkVariable name =>
    cases hfind : find_variable a name <;>
      simp only [applyOp, make_variable, hfind] <;> exact ⟨hnd, hbound, hlen⟩
  | mkSymConstant name =>
    cases hfind : find_sym_constant a name <;>
      simp only [applyOp, make_sym_constant, hfind] <;>
      exact ⟨hnd, hbound, hlen⟩
  | mkIntConstant v =>
    cases hfind : find_int_constant a v <;>
      simp only [applyOp, make_int_constant, hfind] <;>
      exact ⟨hnd, hbound, hlen⟩
  | mkFloatConstant v =>
    cases hfind : find_float_constant a v <;>
      simp only [applyOp, make_float_constant, hfind] <;>
      exact ⟨hnd, hbound, hlen⟩
  | mkNewIdentifier letter level number =>
    have hz : number = 0 := hop
    subst hz
    have hidx : idIndex (normalize_id_letter letter) < a.id_counter.length := by
      rw [hlen]
      exact idIndex_normalize_lt letter
    have htab : (applyOp a (SymOp.mkNewIdentifier letter level 0)).identifier_hash_table
        = (⟨(a.identifier_pool.allocate).1, normalize_id_letter letter,
            a.id_counter.getD (idIndex (normalize_id_letter letter)) 0,
            level, false, 1, a.current_symbol_hash_id + 137⟩ : IdSym)
          :: a.identifier_hash_table := rfl
    have hcnt : (applyOp a (SymOp.mkNewIdentifier letter level 0)).id_counter
        = a.id_counter.set (idIndex (normalize_id_letter letter))
            (a.id_counter.getD (idIndex (normalize_id_letter letter)) 0 + 1) :=
      rfl
    refine ⟨?_, ?_, ?_⟩
    · rw [htab, List.map_cons, List.nodup_cons]
      refine ⟨?_, hnd⟩
      intro hmem
      obtain ⟨t, ht, hteq⟩ := List.mem_map.mp hmem
      have h1 : t.name_letter = normalize_id_letter letter :=
        congrArg Prod.fst hteq
      have h2 : t.name_number
          = a.id_counter.getD (idIndex (normalize_id_letter letter)) 0 :=
        congrArg Prod.snd hteq
      have hb := hbound t ht
      rw [h1] at hb
      omega
    · rw [htab, hcnt]
      intro s hs
      rcases List.mem_cons.mp hs with rfl | hsmem
      · simp only [List.getD_eq_getElem?_getD]
        rw [List.getElem?_set_self hidx]
        simp
      · have hb := hbound s hsmem
        by_cases hj : idIndex (normalize_id_letter letter)
            = idIndex s.name_letter
        · rw [← hj] at hb ⊢
          simp only [List.getD_eq_getElem?_getD] at hb ⊢
          rw [List.getElem?_set_self hidx]
          simp only [Option.getD_some]
          omega
        · simp only [List.getD_eq_getElem?_getD] at hb ⊢
          rw [List.getElem?_set_ne hj]
          exact hb
    · rw [hcnt, List.length_set]
      exact hlen
  | addRef r =>
    obtain ⟨k, slot⟩ := r
    cases k with
    | idSym =>
      refine ⟨?_, ?_, hlen⟩
      · simp only [applyOp, symbol_add_ref, id_add_ref]
        rw [map_updateFirst (fun s => s.slot == slot)
          (fun s => { s with reference_count := s.reference_count + 1 })
          (fun s => (s.name_letter, s.name_number)) (fun t => rfl)
          a.identifier_hash_table]
        exact hnd
      · intro s hs
        rcases mem_updateFirst _ _ _ _ hs with hmem | ⟨y, hy, rfl⟩
        · exact hbound s hmem
        · exact hbound y hy
    | varSym => exact ⟨hnd, hbound, hlen⟩
    | scSym => exact ⟨hnd, hbound, hlen⟩
    | intSym => exact ⟨hnd, hbound, hlen⟩
    | floatSym => exact ⟨hnd, hbound, hlen⟩
  | removeRef r =>
    obtain ⟨k, slot⟩ := r
    cases k with
    | idSym =>
      simp only [applyOp, symbol_remove_ref]
      cases hfind : a.identifier_hash_table.find? (fun s => s.slot == slot) with
      | none => exact ⟨hnd, hbound, hlen⟩
      | some s =>
        simp only
        by_cases hrc : s.reference_count ≤ 1
        · rw [if_pos hrc]
          refine ⟨nodup_map_eraseP _ _ _ hnd, ?_, hlen⟩
          intro t ht
          exact hbound t (mem_eraseP_subset _ _ _ ht)
        · rw [if_neg hrc]
          refine ⟨?_, ?_, hlen⟩
          · rw [map_updateFirst (fun t => t.slot == slot)
              (fun t => { t with reference_count := t.reference_count - 1 })
              (fun s => (s.name_letter, s.name_number)) (fun t => rfl)
              a.identifier_hash_table]
            exact hnd
          · intro t ht
            rcases mem_updateFirst _ _ _ _ ht with hmem | ⟨y, hy, rfl⟩
            · exact hbound t hmem
            · exact hbound y hy
    | varSym =>
      simp only [applyOp, symbol_remove_ref]
      cases hfind : a.variable_hash_table.find? (fun s => s.slot == slot) with
      | none => exact ⟨hnd, hbound, hlen⟩
      | some s =>
        simp only
        by_cases hrc : s.reference_count ≤ 1
        · rw [if_pos hrc]; exact ⟨hnd, hbound, hlen⟩
        · rw [if_neg hrc]; exact ⟨hnd, hbound, hlen⟩
    | scSym =>
      simp only [applyOp, symbol_remove_ref]
      cases hfind : a.sym_constant_hash_table.find? (fun s => s.slot == slot) with
      | none => exact ⟨hnd, hbound, hlen⟩
      | some s =>
        simp only
        by_cases hrc : s.reference_count ≤ 1
        · rw [if_pos hrc]; exact ⟨hnd, hbound, hlen⟩
        · rw [if_neg hrc]; exact ⟨hnd, hbound, hlen⟩
    | intSym =>
      simp only [applyOp, symbol_remove_ref]
      cases hfind : a.int_constant_hash_table.find? (fun s => s.slot == slot) with
      | none => exact ⟨hnd, hbound, hlen⟩
      | some s =>
        simp only
        by_cases hrc : s.reference_count ≤ 1
        · rw [if_pos hrc]; exact ⟨hnd, hbound, hlen⟩
        · rw [if_neg hrc]; exact ⟨hnd, hbound, hlen⟩
    | floatSym =>
      simp only [applyOp, symbol_remove_ref]
      cases hfind : a.float_constant_hash_table.find? (fun s => s.slot == slot) with
      | none => exact ⟨hnd, hbound, hlen⟩
      | some s =>
        simp only
        by_cases hrc : s.reference_count ≤ 1
        · rw [if_pos hrc]; exact ⟨hnd, hbound, hlen⟩
        · rw [if_neg hrc]; exact ⟨hnd, hbound, hlen⟩

end Soar

namespace Soar

theorem nodup_map_filter (p : α → Bool) (keyOf : α → κ) (l : List α)
    (h : (l.map keyOf).Nodup) : ((l.filter p).map keyOf).Nodup :=
  List.Nodup.sublist (List.Sublist.map keyOf (List.filter_sublist l)) h

theorem runOps_nodup (ops : List SymOp) :
    ∀ a : SymAgent,
      (a.variable_hash_table.map (fun s => s.name)).Nodup →
      (a.sym_constant_hash_table.map (fun s => s.name)).Nodup →
      (a.int_constant_hash_table.map (fun s => s.value)).Nodup →
      (a.float_constant_hash_table.map (fun s => s.value)).Nodup →
      ((runOps ops a).variable_hash_table.map (fun s => s.name)).Nodup
      ∧ ((runOps ops a).sym_constant_hash_table.map (fun s => s.name)).Nodup
      ∧ ((runOps ops a).int_constant_hash_table.map
          (fun s => s.value)).Nodup
      ∧ ((runOps ops a).float_constant_hash_table.map
          (fun s => s.value)).Nodup := by
  induction ops with
  | nil =>
    intro a h1 h2 h3 h4
    exact ⟨h1, h2, h3, h4⟩
  | cons op ops ih =>
    intro a h1 h2 h3 h4
    exact ih (applyOp a op) (applyOp_var_nodup a op h1)
      (applyOp_sc_nodup a op h2) (applyOp_int_nodup a op h3)
      (applyOp_float_nodup a op h4)

theorem runOps_id_invariant (ops : List SymOp)
    (hops : ∀ op ∈ ops, op.noExplicitIdNumber) :
    ∀ a : SymAgent,
      (a.identifier_hash_table.map
        (fun s => (s.name_letter, s.name_number))).Nodup →
      (∀ s ∈ a.identifier_hash_table,
        s.name_number < a.id_counter.getD (idIndex s.name_letter) 0) →
      a.id_counter.length = 26 →
      ((runOps ops a).identifier_hash_table.map
        (fun s => (s.name_letter, s.name_number))).Nodup := by
  induction ops with
  | nil =>
    intro a h1 h2 h3
    exact h1
  | cons op ops ih =>
    intro a h1 h2 h3
    have hstep := applyOp_id_invariant a op
      (hops op (List.mem_cons_self op ops)) h1 h2 h3
    exact ih (fun o ho => hops o (List.mem_cons_of_mem op ho))
      (applyOp a op) hstep.1 hstep.2.1 hstep.2.2

/-- C1 counterexample: two make_new_identifier calls that both pass the
explicit number 5 for letter A leave two live identifiers with the same
(letter, number) key in the identifier hash table. -/
theorem C1_identifier_duplicate_cex :
    ¬ idKeysUnique (runOps
      [SymOp.mkNewIdentifier 'A' 1 5, SymOp.mkNewIdentifier 'A' 1 5]
      initAgent) := by
  decide

/-- C1 amended: after any sequence of interner operations from the
initial state, the variable, symbolic-constant, integer-constant and
float-constant tables hold at most one live symbol per identity key;
the identifier table holds at most one live identifier per
(letter, number) key provided no make_new_identifier call passes an
explicit (nonzero) number - an explicit number below the letter's
counter can duplicate the key of a live identifier, as identifiers are
not content-interned. -/
theorem C1_live_key_uniqueness (ops : List SymOp) :
    varKeysUnique (runOps ops initAgent)
    ∧ scKeysUnique (runOps ops initAgent)
    ∧ intKeysUnique (runOps ops initAgent)
    ∧ floatKeysUnique (runOps ops initAgent)
    ∧ ((∀ op ∈ ops, op.noExplicitIdNumber) →
        idKeysUnique (runOps ops initAgent)) := by
  have h4 := runOps_nodup ops initAgent (by decide) (by decide) (by decide)
    (by decide)
  refine ⟨nodup_map_filter _ _ _ h4.1, nodup_map_filter _ _ _ h4.2.1,
    nodup_map_filter _ _ _ h4.2.2.1, nodup_map_filter _ _ _ h4.2.2.2, ?_⟩
  intro hops
  have hid := runOps_id_invariant ops hops initAgent (by decide) (by decide)
    (by decide)
  exact nodup_map_filter _ _ _ hid

/-- Witness for C1 on a sequence that interns a variable and creates an
identifier with the number omitted. -/
theorem C1_live_key_uniqueness_witness :
    varKeysUnique (runOps
      [SymOp.mkVariable "<s>", SymOp.mkNewIdentifier 'B' 1 0] initAgent)
    ∧ idKeysUnique (runOps
      [SymOp.mkVariable "<s>", SymOp.mkNewIdentifier 'B' 1 0] initAgent) :=
  ⟨(C1_live_key_uniqueness
      [SymOp.mkVariable "<s>", SymOp.mkNewIdentifier 'B' 1 0]).1,
   (C1_live_key_uniqueness
      [SymOp.mkVariable "<s>", SymOp.mkNewIdentifier 'B' 1 0]).2.2.2.2
     (by decide)⟩

end Soar

namespace Soar

/-! ### Claim C8: intern-then-release round trip -/

theorem internRelease_sc_found (a : SymAgent) (name : String) (s : SymConst)
    (hf : find_sym_constant a name = some s)
    (hnd : (a.sym_constant_hash_table.map (fun t => t.slot)).Nodup)
    (hlive : ∀ t ∈ a.sym_constant_hash_table, 0 < t.reference_count) :
    internReleaseSymConstant a name = a := by
  have hs : s ∈ a.sym_constant_hash_table := List.mem_of_find?_eq_some hf
  have hrc : 0 < s.reference_count := hlive s hs
  have hmake : make_sym_constant a name
      = ({ s with reference_count := s.reference_count + 1 },
         sc_add_ref a s.slot) := by
    simp only [make_sym_constant, hf]
  unfold internReleaseSymConstant
  rw [hmake]
  have hfind0 : a.sym_constant_hash_table.find? (fun t => t.slot == s.slot)
      = some s :=
    find?_keyOf_eq_of_mem (fun t => t.slot) s a.sym_constant_hash_table hs hnd
  have hfind2 : (updateFirst (fun t => t.slot == s.slot)
        (fun t => { t with reference_count := t.reference_count + 1 })
        a.sym_constant_hash_table).find? (fun t => t.slot == s.slot)
      = some { s with reference_count := s.reference_count + 1 } := by
    rw [find?_updateFirst_self (fun t => t.slot == s.slot)
      (fun t => { t with reference_count := t.reference_count + 1 })
      (fun t => rfl) a.sym_constant_hash_table, hfind0]
    rfl
  show symbol_remove_ref (sc_add_ref a s.slot)
      ⟨SymKind.scSym, ({ s with reference_count := s.reference_count + 1 } : SymConst).slot⟩
    = a
  unfold symbol_remove_ref
  simp only
  rw [show (sc_add_ref a s.slot).sym_constant_hash_table
      = updateFirst (fun t => t.slot == s.slot)
          (fun t => { t with reference_count := t.reference_count + 1 })
          a.sym_constant_hash_table from rfl]
  rw [show ({ s with reference_count := s.reference_count + 1 } : SymConst).slot
      = s.slot from rfl]
  rw [hfind2]
  simp only
  rw [if_neg (by simp; omega)]
  rw [updateFirst_updateFirst (fun t => t.slot == s.slot)
    (fun t => { t with reference_count := t.reference_count - 1 })
    (fun t => { t with reference_count := t.reference_count + 1 })
    (fun t => rfl) a.sym_constant_hash_table]
  rw [updateFirst_eq_self (fun t => t.slot == s.slot) _
    (fun t => by cases t; simp) a.sym_constant_hash_table]
  cases a
  rfl

theorem internRelease_sc_fresh (a : SymAgent) (name : String)
    (s0 : Nat) (rest : List Nat) (hw : Nat)
    (hpool : a.sym_constant_pool = ⟨s0 :: rest, hw⟩)
    (hf : find_sym_constant a name = none) :
    internerObs (internReleaseSymConstant a name) = internerObs a := by
  unfold internReleaseSymConstant
  simp only [make_sym_constant, hf, get_next_symbol_hash_id, hpool,
    Pool.allocate]
  simp only [symbol_remove_ref]
  rw [List.find?_cons_of_pos _ (by simp)]
  simp only
  rw [if_pos (by simp)]
  simp only [deallocate_sym_constant, Pool.release]
  rw [List.eraseP_cons_of_pos (by simp)]
  simp [internerObs, hpool]

end Soar

namespace Soar

theorem internRelease_var_found (a : SymAgent) (name : String) (s : VarSym)
    (hf : find_variable a name = some s)
    (hnd : (a.variable_hash_table.map (fun t => t.slot)).Nodup)
    (hlive : ∀ t ∈ a.variable_hash_table, 0 < t.reference_count) :
    internReleaseVariable a name = a := by
  have hs : s ∈ a.variable_hash_table := List.mem_of_find?_eq_some hf
  have hrc : 0 < s.reference_count := hlive s hs
  have hmake : make_variable a name
      = ({ s with reference_count := s.reference_count + 1 },
         var_add_ref a s.slot) := by
    simp only [make_variable, hf]
  unfold internReleaseVariable
  rw [hmake]
  have hfind0 : a.variable_hash_table.find? (fun t => t.slot == s.slot)
      = some s :=
    find?_keyOf_eq_of_mem (fun t => t.slot) s a.variable_hash_table hs hnd
  have hfind2 : (updateFirst (fun t => t.slot == s.slot)
        (fun t => { t with reference_count := t.reference_count + 1 })
        a.variable_hash_table).find? (fun t => t.slot == s.slot)
      = some { s with reference_count := s.reference_count + 1 } := by
    rw [find?_updateFirst_self (fun t => t.slot == s.slot)
      (fun t => { t with reference_count := t.reference_count + 1 })
      (fun t => rfl) a.variable_hash_table, hfind0]
    rfl
  show symbol_remove_ref (var_add_ref a s.slot)
      ⟨SymKind.varSym, ({ s with reference_count := s.reference_count + 1 } : VarSym).slot⟩
    = a
  unfold symbol_remove_ref
  simp only
  rw [show (var_add_ref a s.slot).variable_hash_table
      = updateFirst (fun t => t.slot == s.slot)
          (fun t => { t with reference_count := t.reference_count + 1 })
          a.variable_hash_table from rfl]
  rw [show ({ s with reference_count := s.reference_count + 1 } : VarSym).slot
      = s.slot from rfl]
  rw [hfind2]
  simp only
  rw [if_neg (by simp; omega)]
  rw [updateFirst_updateFirst (fun t => t.slot == s.slot)
    (fun t => { t with reference_count := t.reference_count - 1 })
    (fun t => { t with reference_count := t.reference_count + 1 })
    (fun t => rfl) a.variable_hash_table]
  rw [updateFirst_eq_self (fun t => t.slot == s.slot) _
    (fun t => by cases t; simp) a.variable_hash_table]
  cases a
  rfl


theorem internRelease_var_fresh (a : SymAgent) (name : String)
    (s0 : Nat) (rest : List Nat) (hw : Nat)
    (hpool : a.variable_pool = ⟨s0 :: rest, hw⟩)
    (hf : find_variable a name = none) :
    internerObs (internReleaseVariable a name) = internerObs a := by
  unfold internReleaseVariable
  simp only [make_variable, hf, get_next_symbol_hash_id, hpool,
    Pool.allocate]
  simp only [symbol_remove_ref]
  rw [List.find?_cons_of_pos _ (by simp)]
  simp only
  rw [if_pos (by simp)]
  simp only [deallocate_variable, Pool.release]
  rw [List.eraseP_cons_of_pos (by simp)]
  simp [internerObs, hpool]


theorem internRelease_int_found (a : SymAgent) (value : Int) (s : IntConst)
    (hf : find_int_constant a value = some s)
    (hnd : (a.int_constant_hash_table.map (fun t => t.slot)).Nodup)
    (hlive : ∀ t ∈ a.int_constant_hash_table, 0 < t.reference_count) :
    internReleaseIntConstant a value = a := by
  have hs : s ∈ a.int_constant_hash_table := List.mem_of_find?_eq_some hf
  have hrc : 0 < s.reference_count := hlive s hs
  have hmake : make_int_constant a value
      = ({ s with reference_count := s.reference_count + 1 },
         int_add_ref a s.slot) := by
    simp only [make_int_constant, hf]
  unfold internReleaseIntConstant
  rw [hmake]
  have hfind0 : a.int_constant_hash_table.find? (fun t => t.slot == s.slot)
      = some s :=
    find?_keyOf_eq_of_mem (fun t => t.slot) s a.int_constant_hash_table hs hnd
  have hfind2 : (updateFirst (fun t => t.slot == s.slot)
        (fun t => { t with reference_count := t.reference_count + 1 })
        a.int_constant_hash_table).find? (fun t => t.slot == s.slot)
      = some { s with reference_count := s.reference_count + 1 } := by
    rw [find?_updateFirst_self (fun t => t.slot == s.slot)
      (fun t => { t with reference_count := t.reference_count + 1 })
      (fun t => rfl) a.int_constant_hash_table, hfind0]
    rfl
  show symbol_remove_ref (int_add_ref a s.slot)
      ⟨SymKind.intSym, ({ s with reference_count := s.reference_count + 1 } : IntConst).slot⟩
    = a
  unfold symbol_remove_ref
  simp only
  rw [show (int_add_ref a s.slot).int_constant_hash_table
      = updateFirst (fun t => t.slot == s.slot)
          (fun t => { t with reference_count := t.reference_count + 1 })
          a.int_constant_hash_table from rfl]
  rw [show ({ s with reference_count := s.reference_count + 1 } : IntConst).slot
      = s.slot from rfl]
  rw [hfind2]
  simp only
  rw [if_neg (by simp; omega)]
  rw [updateFirst_updateFirst (fun t => t.slot == s.slot)
    (fun t => { t with reference_count := t.reference_count - 1 })
    (fun t => { t with reference_count := t.reference_count + 1 })
    (fun t => rfl) a.int_constant_hash_table]
  rw [updateFirst_eq_self (fun t => t.slot == s.slot) _
    (fun t => by cases t; simp) a.int_constant_hash_table]
  cases a
  rfl


theorem internRelease_int_fresh (a : SymAgent) (value : Int)
    (s0 : Nat) (rest : List Nat) (hw : Nat)
    (hpool : a.int_constant_pool = ⟨s0 :: rest, hw⟩)
    (hf : find_int_constant a value = none) :
    internerObs (internReleaseIntConstant a value) = internerObs a := by
  unfold internReleaseIntConstant
  simp only [make_int_constant, hf, get_next_symbol_hash_id, hpool,
    Pool.allocate]
  simp only [symbol_remove_ref]
  rw [List.find?_cons_of_pos _ (by simp)]
  simp only
  rw [if_pos (by simp)]
  simp only [deallocate_int_constant, Pool.release]
  rw [List.eraseP_cons_of_pos (by simp)]
  simp [internerObs, hpool]


theorem internRelease_float_found (a : SymAgent) (value : Rat) (s : FloatConst)
    (hf : find_float_constant a value = some s)
    (hnd : (a.float_constant_hash_table.map (fun t => t.slot)).Nodup)
    (hlive : ∀ t ∈ a.float_constant_hash_table, 0 < t.reference_count) :
    internReleaseFloatConstant a value = a := by
  have hs : s ∈ a.float_constant_hash_table := List.mem_of_find?_eq_some hf
  have hrc : 0 < s.reference_count := hlive s hs
  have hmake : make_float_constant a value
      = ({ s with reference_count := s.reference_count + 1 },
         float_add_ref a s.slot) := by
    simp only [make_float_constant, hf]
  unfold internReleaseFloatConstant
  rw [hmake]
  have hfind0 : a.float_constant_hash_table.find? (fun t => t.slot == s.slot)
      = some s :=
    find?_keyOf_eq_of_mem (fun t => t.slot) s a.float_constant_hash_table hs hnd
  have hfind2 : (updateFirst (fun t => t.slot == s.slot)
        (fun t => { t with reference_count := t.reference_count + 1 })
        a.float_constant_hash_table).find? (fun t => t.slot == s.slot)
      = some { s with reference_count := s.reference_count + 1 } := by
    rw [find?_updateFirst_self (fun t => t.slot == s.slot)
      (fun t => { t with reference_count := t.reference_count + 1 })
      (fun t => rfl) a.float_constant_hash_table, hfind0]
    rfl
  show symbol_remove_ref (float_add_ref a s.slot)
      ⟨SymKind.floatSym, ({ s with reference_count := s.reference_count + 1 } : FloatConst).slot⟩
    = a
  unfold symbol_remove_ref
  simp only
  rw [show (float_add_ref a s.slot).float_constant_hash_table
      = updateFirst (fun t => t.slot == s.slot)
          (fun t => { t with reference_count := t.reference_count + 1 })
          a.float_constant_hash_table from rfl]
  rw [show ({ s with reference_count := s.reference_count + 1 } : FloatConst).slot
      = s.slot from rfl]
  rw [hfind2]
  simp only
  rw [if_neg (by simp; omega)]
  rw [updateFirst_updateFirst (fun t => t.slot == s.slot)
    (fun t => { t with reference_count := t.reference_count - 1 })
    (fun t => { t with reference_count := t.reference_count + 1 })
    (fun t => rfl) a.float_constant_hash_table]
  rw [updateFirst_eq_self (fun t => t.slot == s.slot) _
    (fun t => by cases t; simp) a.float_constant_hash_table]
  cases a
  rfl


theorem internRelease_float_fresh (a : SymAgent) (value : Rat)
    (s0 : Nat) (rest : List Nat) (hw : Nat)
    (hpool : a.float_constant_pool = ⟨s0 :: rest, hw⟩)
    (hf : find_float_constant a value = none) :
    internerObs (internReleaseFloatConstant a value) = internerObs a := by
  unfold internReleaseFloatConstant
  simp only [make_float_constant, hf, get_next_symbol_hash_id, hpool,
    Pool.allocate]
  simp only [symbol_remove_ref]
  rw [List.find?_cons_of_pos _ (by simp)]
  simp only
  rw [if_pos (by simp)]
  simp only [deallocate_float_constant, Pool.release]
  rw [List.eraseP_cons_of_pos (by simp)]
  simp [internerObs, hpool]


theorem internRelease_id_fresh (a : SymAgent) (letter : Char) (level : Int)
    (number : Nat) (s0 : Nat) (rest : List Nat) (hw : Nat)
    (hpool : a.identifier_pool = ⟨s0 :: rest, hw⟩) :
    internerObs (internReleaseIdentifier a letter level number)
      = internerObs a := by
  unfold internReleaseIdentifier
  simp only [make_new_identifier, get_next_symbol_hash_id, hpool,
    Pool.allocate]
  simp only [symbol_remove_ref]
  rw [List.find?_cons_of_pos _ (by simp)]
  simp only
  rw [if_pos (by simp)]
  simp only [deallocate_identifier, Pool.release]
  rw [List.eraseP_cons_of_pos (by simp)]
  simp [internerObs, hpool]

end Soar

namespace Soar

/-- C8 counterexample: on the initial agent, whose pools have empty
free lists, interning the fresh constant state and releasing it leaves
the carved slot on the pool's free list, so the free list composition
is not the one prior to the pair. -/
theorem C8_fresh_slot_cex :
    (internReleaseSymConstant initAgent "state").sym_constant_pool.free_list
      ≠ initAgent.sym_constant_pool.free_list := by
  decide

/-- C8 amended: an intern immediately followed by a release of the
returned reference restores every component the claim enumerates (the
five tables with their refcounts and the five pools with their free
lists) - exactly, state-for-state, when the symbol already existed (on
well-formed states: distinct slots, live entries), and whenever a
fresh symbol's record is served from the pool free list rather than
carved from never-used pool space; in the carve case the free list
gains the new slot (the counterexample), which is the one deviation
the claim's "including fresh creation" wording does not survive. -/
theorem C8_intern_release_roundtrip :
    (∀ (a : SymAgent) (name : String) (s : VarSym),
      find_variable a name = some s →
      (a.variable_hash_table.map (fun t => t.slot)).Nodup →
      (∀ t ∈ a.variable_hash_table, 0 < t.reference_count) →
      internReleaseVariable a name = a)
    ∧ (∀ (a : SymAgent) (name : String) (s0 : Nat) (rest : List Nat)
        (hw : Nat), a.variable_pool = ⟨s0 :: rest, hw⟩ →
      find_variable a name = none →
      internerObs (internReleaseVariable a name) = internerObs a)
    ∧ (∀ (a : SymAgent) (name : String) (s : SymConst),
      find_sym_constant a name = some s →
      (a.sym_constant_hash_table.map (fun t => t.slot)).Nodup →
      (∀ t ∈ a.sym_constant_hash_table, 0 < t.reference_count) →
      internReleaseSymConstant a name = a)
    ∧ (∀ (a : SymAgent) (name : String) (s0 : Nat) (rest : List Nat)
        (hw : Nat), a.sym_constant_pool = ⟨s0 :: rest, hw⟩ →
      find_sym_constant a name = none →
      internerObs (internReleaseSymConstant a name) = internerObs a)
    ∧ (∀ (a : SymAgent) (value : Int) (s : IntConst),
      find_int_constant a value = some s →
      (a.int_constant_hash_table.map (fun t => t.slot)).Nodup →
      (∀ t ∈ a.int_constant_hash_table, 0 < t.reference_count) →
      internReleaseIntConstant a value = a)
    ∧ (∀ (a : SymAgent) (value : Int) (s0 : Nat) (rest : List Nat)
        (hw : Nat), a.int_constant_pool = ⟨s0 :: rest, hw⟩ →
      find_int_constant a value = none →
      internerObs (internReleaseIntConstant a value) = internerObs a)
    ∧ (∀ (a : SymAgent) (value : Rat) (s : FloatConst),
      find_float_constant a value = some s →
      (a.float_constant_hash_table.map (fun t => t.slot)).Nodup →
      (∀ t ∈ a.float_constant_hash_table, 0 < t.reference_count) →
      internReleaseFloatConstant a value = a)
    ∧ (∀ (a : SymAgent) (value : Rat) (s0 : Nat) (rest : List Nat)
        (hw : Nat), a.float_constant_pool = ⟨s0 :: rest, hw⟩ →
      find_float_constant a value = none →
      internerObs (internReleaseFloatConstant a value) = internerObs a)
    ∧ (∀ (a : SymAgent) (letter : Char) (level : Int) (number : Nat)
        (s0 : Nat) (rest : List Nat) (hw : Nat),
      a.identifier_pool = ⟨s0 :: rest, hw⟩ →
      internerObs (internReleaseIdentifier a letter level number)
        = internerObs a) :=
  ⟨internRelease_var_found, internRelease_var_fresh,
   internRelease_sc_found, internRelease_sc_fresh,
   internRelease_int_found, internRelease_int_fresh,
   internRelease_float_found, internRelease_float_fresh,
   internRelease_id_fresh⟩

/-- Witness for C8: releasing a second reference to the live constant
state returns the one-reference state unchanged, and an
intern-release pair of a fresh constant through a recycled slot
restores the observable interner state. -/
theorem C8_intern_release_roundtrip_witness :
    internReleaseSymConstant c4_once.2 "state" = c4_once.2
    ∧ internerObs (internReleaseSymConstant c4_release2 "io")
        = internerObs c4_release2 :=
  ⟨C8_intern_release_roundtrip.2.2.1 c4_once.2 "state"
      ⟨0, "state", 1, 137⟩ (by decide) (by decide) (by decide),
   C8_intern_release_roundtrip.2.2.2.1 c4_release2 "io" 0 []
      c4_release2.sym_constant_pool.high_water (by decide) (by decide)⟩

end Soar
